import Mathlib

/-!
# The spillbox schema (`spilldb/spillbox/sql_spillbox.go`)

The source is one Go constant, `createSQL`, holding the SQLite schema of a
single-user mailbox: thirteen tables, two indexes, four seed rows and the
trigger `MailboxRenameUIDValidity`.

The embedding is a shallow one.  A table is the list of its rows in insertion
order, a row is a structure with one field per column, a column without
`NOT NULL` (and that is not the `INTEGER PRIMARY KEY`) is an `Option`, and
`NULL` is `none`.  A statement is a function from the table to `Except SqlError`
of the new table; a statement that fails is rolled back, so the table it leaves
is the table it found.

A number in an `INTEGER` column is held by its value, an `Int`.  SQLite stores
an integer of the 64-bit range as an `INTEGER` and a number beyond that range as
a `REAL`, so a value within `int64Min .. int64Max` stands for the `INTEGER` and a
value outside it for the `REAL` of that value.  Arithmetic follows the engine:
`x + 1` is exact on an `INTEGER`, also at `int64Max`, where the sum is computed
as the `REAL` `2^63`; on a `REAL` beyond the 64-bit range it is `x` again, since
the doubles there lie more than one apart (`sqlSucc`).  Numbers with a
fractional part, text and blobs in an `INTEGER` column are outside the model.

Constraint semantics are those of SQLite, the engine the schema is written
for (`INSERT OR IGNORE`, `INTEGER PRIMARY KEY`, the attached database
`blobs`):

* an `INTEGER PRIMARY KEY` column is the rowid: never `NULL`, unique, and an
  insert that gives `NULL` for it receives one more than the largest rowid;
* `UNIQUE` and a composite `PRIMARY KEY` are unique indexes, in which a key
  with a `NULL` component is distinct from every other key; a `PRIMARY KEY`
  column of a rowid table that is not declared `NOT NULL` may hold `NULL`;
* the foreign keys carry no action (`ON DELETE`/`ON UPDATE` are absent) and the
  schema does not switch their enforcement on, so a statement on one table
  never reads or writes another one; the only statement with an effect outside
  its own row is the trigger;
* statements are the single-row ones: an insert of one row, an update or a
  delete selected by the primary key, each under the default conflict clause
  or `OR IGNORE`.
-/

namespace Spillbox

/-! ## Rows, one structure per `CREATE TABLE` -/

/-- Row of `ApplePushDevices` (source lines 10-14). -/
structure ApplePushDevice where
  Mailbox : String
  AppleAccountID : String
  AppleDeviceToken : String
deriving DecidableEq, Repr

/-- Row of `Contacts` (source lines 19-23). -/
structure Contact where
  ContactID : Int
  Hidden : Option Bool
  Robot : Option Bool
deriving DecidableEq, Repr

/-- Row of `Addresses` (source lines 27-36). -/
structure Address where
  AddressID : Int
  ContactID : Option Int
  Name : Option String
  Address : String
  DefaultAddr : Bool
  Visible : Bool
deriving DecidableEq, Repr

/-- Row of `MailboxSequencing` (source lines 48-51).  `Name` is a `TEXT PRIMARY KEY`
of a rowid table, which SQLite lets be `NULL`. -/
structure MailboxSequencingRow where
  Name : Option String
  NextModSequence : Int
deriving DecidableEq, Repr

/-- Row of `Mailboxes` (source lines 53-63).  `UIDValidity` is the number the column
holds: an `INTEGER` when it lies in the 64-bit range, a `REAL` beyond it. -/
structure Mailbox where
  MailboxID : Int
  NextUID : Int
  UIDValidity : Int
  Attrs : Option Int
  Name : Option String
  DeletedName : Option String
  Subscribed : Option Bool
deriving DecidableEq, Repr

/-- Row of `Labels` (source lines 67-72). -/
structure Label where
  LabelID : Int
  Label : Option String
deriving DecidableEq, Repr

/-- Row of `Convos` (source lines 76-79). -/
structure Convo where
  ConvoID : Int
  ConvoSummary : Option String
deriving DecidableEq, Repr

/-- Row of `ConvoContacts` (source lines 81-88): neither column is `NOT NULL`. -/
structure ConvoContact where
  ConvoID : Option Int
  ContactID : Option Int
deriving DecidableEq, Repr

/-- Row of `ConvoLabels` (source lines 90-97): neither column is `NOT NULL`. -/
structure ConvoLabel where
  LabelID : Option Int
  ConvoID : Option Int
deriving DecidableEq, Repr

/-- Row of `Msgs` (source lines 99-130). -/
structure Msg where
  MsgID : Int
  StagingID : Option Int
  ModSequence : Option Int
  Seed : Option Int
  RawHash : Option String
  ConvoID : Option Int
  State : Option Int
  ParseError : Option String
  MailboxID : Option Int
  UID : Option Int
  Flags : Option String
  EncodedSize : Option Int
  Date : Int
  Expunged : Option Int
  HdrsBlobID : Option Int
  HasUnsubscribe : Option Int
deriving DecidableEq, Repr

/-- Row of `MsgAddresses` (source lines 132-140). -/
structure MsgAddress where
  MsgID : Int
  AddressID : Int
  Role : Int
deriving DecidableEq, Repr

/-- Row of `MsgParts` (source lines 146-164). -/
structure MsgPart where
  MsgID : Int
  PartNum : Int
  Name : String
  IsBody : Bool
  IsAttachment : Bool
  IsCompressed : Option Bool
  CompressedSize : Option Int
  ContentType : Option String
  ContentID : Option String
  BlobID : Option Int
  ContentTransferEncoding : Option String
  ContentTransferSize : Option Int
  ContentTransferLines : Option Int
deriving DecidableEq, Repr

/-- Row of `blobs.Blobs` (source lines 181-186).  `Content` is a byte string. -/
structure Blob where
  BlobID : Int
  SHA256 : Option String
  Deleted : Option Int
  Content : Option (List Nat)
deriving DecidableEq, Repr

/-- The whole database: one list of rows per table of `createSQL`. -/
structure Store where
  ApplePushDevices : List ApplePushDevice
  Contacts : List Contact
  Addresses : List Address
  MailboxSequencing : List MailboxSequencingRow
  Mailboxes : List Mailbox
  Labels : List Label
  Convos : List Convo
  ConvoContacts : List ConvoContact
  ConvoLabels : List ConvoLabel
  Msgs : List Msg
  MsgAddresses : List MsgAddress
  MsgParts : List MsgPart
  Blobs : List Blob
deriving DecidableEq, Repr

/-- The database right after the `CREATE TABLE` statements ran on a new file. -/
def Store.empty : Store :=
  ⟨[], [], [], [], [], [], [], [], [], [], [], [], []⟩

/-! ## Statements -/

/-- The constraint failures of SQLite that this schema can raise. -/
inductive SqlError where
  | notNull
  | primaryKey
  | unique
deriving DecidableEq, Repr

/-- Conflict clause of a statement: the default (`ABORT`) or `OR IGNORE`. -/
inductive OnConflict where
  | abort
  | ignore
deriving DecidableEq, Repr

/-- What a statement does with a row that breaks a constraint: `ABORT` fails the
statement, `OR IGNORE` skips the row and succeeds without a change. -/
def resolve {Row : Type} (oc : OnConflict) (t : List Row) (e : SqlError) :
    Except SqlError (List Row) :=
  match oc with
  | OnConflict.abort => Except.error e
  | OnConflict.ignore => Except.ok t

/-- SQL `=` inside a unique index: two values collide when both are non-NULL and
equal; `NULL` collides with nothing. -/
def sqlEq {α : Type} [DecidableEq α] (a b : Option α) : Bool :=
  match a, b with
  | some x, some y => decide (x = y)
  | _, _ => false

/-- Aggregate `max(...)`: `NULL` on no rows. -/
def sqlMax : List Int → Option Int
  | [] => none
  | x :: xs =>
    match sqlMax xs with
    | none => some x
    | some m => some (max x m)

/-- The least 64-bit integer. -/
def int64Min : Int := -9223372036854775808

/-- The greatest 64-bit integer. -/
def int64Max : Int := 9223372036854775807

/-- SQL `x + 1` on a number of an `INTEGER` column.  On a 64-bit integer the sum is
exact: below `int64Max` it is an integer again, at `int64Max` the integer
addition overflows and SQLite computes the `REAL` `2^63`.  A number outside the
64-bit range is a `REAL` already, and `REAL + 1` rounds back to the same
`REAL`. -/
def sqlSucc (x : Int) : Int :=
  if int64Min ≤ x ∧ x ≤ int64Max then x + 1 else x

/-- The rowid SQLite gives to a row inserted with a `NULL` `INTEGER PRIMARY KEY`:
one more than the largest rowid in the table, `1` in an empty table (below
`int64Max`; at that rowid the engine searches for an unused one). -/
def nextRowid (ids : List Int) : Int :=
  match sqlMax ids with
  | none => 1
  | some m => m + 1

/-- Insert of one row whose columns are already evaluated: `pk q r` says that
the stored row `q` has the primary key of `r`, `uq q r` that `q` and `r` collide in
a `UNIQUE` index.  The primary key is checked first. -/
def sqlInsert {Row : Type} (pk uq : Row → Row → Bool) (oc : OnConflict)
    (t : List Row) (r : Row) : Except SqlError (List Row) :=
  if t.any (fun q => pk q r) then resolve oc t SqlError.primaryKey
  else if t.any (fun q => uq q r) then resolve oc t SqlError.unique
  else Except.ok (t ++ [r])

/-- Delete of the rows selected by `p`. -/
def sqlDelete {Row : Type} (p : Row → Bool) (t : List Row) : List Row :=
  t.filter (fun r => !p r)

/-- Update of the rows selected by `p` (a `WHERE` on the primary key, hence at
most one row of a table whose keys are distinct).  `f row` is the row after the
`SET` clause, `none` when a `NOT NULL` column would become `NULL`; `f` leaves the
key alone.  The statement fails on such a `NULL`, and when a new row collides in
a `UNIQUE` index with a row that is not being updated. -/
def sqlUpdate {Row : Type} (uq : Row → Row → Bool) (p : Row → Bool) (f : Row → Option Row)
    (t : List Row) : Except SqlError (List Row) :=
  if t.any (fun r => p r && (f r).isNone) then Except.error SqlError.notNull
  else if t.any (fun r => p r && t.any (fun q => !p q &&
      (match f r with
       | some r' => uq q r'
       | none => false))) then
    Except.error SqlError.unique
  else Except.ok (t.map (fun r => if p r then (f r).getD r else r))

/-- A failed statement is rolled back: the table stays what it was. -/
def commit {Row : Type} (t : List Row) (r : Except SqlError (List Row)) : List Row :=
  match r with
  | Except.ok t' => t'
  | Except.error _ => t

/-! ## `Mailboxes` and the trigger `MailboxRenameUIDValidity` -/

/-- The `VALUES` of an insert into `Mailboxes`; a column left out is `NULL`. -/
structure MailboxValues where
  MailboxID : Option Int
  NextUID : Option Int
  UIDValidity : Option Int
  Attrs : Option Int
  Name : Option String
  DeletedName : Option String
  Subscribed : Option Bool

/-- The `SET` clause of an update of `Mailboxes`: `none` for a column that is not
assigned, otherwise the expression, which may read the old row.  `MailboxID`
is not assignable here. -/
structure MailboxSet where
  NextUID : Option (Mailbox → Option Int)
  UIDValidity : Option (Mailbox → Option Int)
  Attrs : Option (Mailbox → Option Int)
  Name : Option (Mailbox → Option String)
  DeletedName : Option (Mailbox → Option String)
  Subscribed : Option (Mailbox → Option Bool)

/-- Value of one column after a `SET` clause. -/
def setCol {Row α : Type} (e : Option (Row → Option α)) (old : Option α) (r : Row) :
    Option α :=
  match e with
  | none => old
  | some g => g r

/-- `MailboxID INTEGER PRIMARY KEY`. -/
def Mailboxes.pk (q r : Mailbox) : Bool := decide (q.MailboxID = r.MailboxID)

/-- `UNIQUE(Name)`. -/
def Mailboxes.uq (q r : Mailbox) : Bool := sqlEq q.Name r.Name

/-- `INSERT [OR IGNORE] INTO Mailboxes VALUES (...)`: `NextUID` and `UIDValidity`
are `NOT NULL`. -/
def Mailboxes.insert (oc : OnConflict) (t : List Mailbox) (v : MailboxValues) :
    Except SqlError (List Mailbox) :=
  match v.NextUID, v.UIDValidity with
  | some nu, some uv =>
    sqlInsert Mailboxes.pk Mailboxes.uq oc t
      ⟨v.MailboxID.getD (nextRowid (t.map Mailbox.MailboxID)), nu, uv, v.Attrs, v.Name,
        v.DeletedName, v.Subscribed⟩
  | _, _ => resolve oc t SqlError.notNull

/-- The row after a `SET` clause, `none` when `NextUID` or `UIDValidity` would be `NULL`. -/
def MailboxSet.apply (a : MailboxSet) (r : Mailbox) : Option Mailbox :=
  match setCol a.NextUID (some r.NextUID) r, setCol a.UIDValidity (some r.UIDValidity) r with
  | some nu, some uv =>
    some ⟨r.MailboxID, nu, uv, setCol a.Attrs r.Attrs r, setCol a.Name r.Name r,
      setCol a.DeletedName r.DeletedName r, setCol a.Subscribed r.Subscribed r⟩
  | _, _ => none

/-- `UPDATE Mailboxes SET ... WHERE MailboxID = id`, the row write alone (no
trigger).  The index on `Name` is consulted only when `Name` is assigned. -/
def Mailboxes.updateRows (t : List Mailbox) (id : Int) (a : MailboxSet) :
    Except SqlError (List Mailbox) :=
  sqlUpdate (fun q r => a.Name.isSome && Mailboxes.uq q r)
    (fun r => decide (r.MailboxID = id)) a.apply t

/-- `(SELECT max(UIDValidity) FROM Mailboxes)`. -/
def maxUIDValidity (t : List Mailbox) : Option Int :=
  sqlMax (t.map Mailbox.UIDValidity)

/-- The `SET` clause of the trigger body:
`SET UIDValidity = (SELECT max(UIDValidity) FROM Mailboxes) + 1`; `NULL + 1` is `NULL`,
and the sum of a number is that of `sqlSucc`. -/
def bumpUIDValidity (t : List Mailbox) : MailboxSet :=
  ⟨none, some (fun _ => (maxUIDValidity t).map sqlSucc), none, none, none, none⟩

/-- Body of the trigger (source lines 176-178), run with the updated row as `new`:
`UPDATE Mailboxes SET UIDValidity = (SELECT max(UIDValidity) FROM Mailboxes) + 1
 WHERE MailboxID = new.MailboxID`. -/
def MailboxRenameUIDValidity (new : Mailbox) (t : List Mailbox) :
    Except SqlError (List Mailbox) :=
  Mailboxes.updateRows t new.MailboxID (bumpUIDValidity t)

/-- `UPDATE Mailboxes SET ... WHERE MailboxID = id` with the schema in place: the
row is written, then, when `Name` is among the assigned columns
(`AFTER UPDATE OF Name ... FOR EACH ROW`), the trigger runs for the updated row. -/
def Mailboxes.update (t : List Mailbox) (id : Int) (a : MailboxSet) :
    Except SqlError (List Mailbox) :=
  match Mailboxes.updateRows t id a with
  | Except.error e => Except.error e
  | Except.ok mid =>
    if a.Name.isSome then
      match mid.find? (fun r => decide (r.MailboxID = id)) with
      | none => Except.ok mid
      | some new => MailboxRenameUIDValidity new mid
    else Except.ok mid

/-- `DELETE FROM Mailboxes WHERE MailboxID = id`. -/
def Mailboxes.delete (t : List Mailbox) (id : Int) : List Mailbox :=
  sqlDelete (fun r => decide (r.MailboxID = id)) t

/-- The `SET` clause `SET Name = newName`. -/
def setName (newName : Option String) : MailboxSet :=
  ⟨none, none, none, some (fun _ => newName), none, none⟩

/-- Rename: `UPDATE Mailboxes SET Name = newName WHERE MailboxID = id`. -/
def Mailboxes.rename (t : List Mailbox) (id : Int) (newName : Option String) :
    Except SqlError (List Mailbox) :=
  Mailboxes.update t id (setName newName)

/-- A statement on `Mailboxes`. -/
inductive MailboxStmt where
  | insert (oc : OnConflict) (v : MailboxValues)
  | update (id : Int) (a : MailboxSet)
  | delete (id : Int)

/-- Run one statement on `Mailboxes`. -/
def Mailboxes.exec (t : List Mailbox) : MailboxStmt → Except SqlError (List Mailbox)
  | MailboxStmt.insert oc v => Mailboxes.insert oc t v
  | MailboxStmt.update id a => Mailboxes.update t id a
  | MailboxStmt.delete id => Except.ok (Mailboxes.delete t id)

/-- Run one statement on the `Mailboxes` table of a store.  No other table is
written: `Mailboxes` has no foreign key, the foreign key of `Msgs` into it has no
action, and the trigger body updates `Mailboxes` only. -/
def Store.execMailbox (s : Store) (st : MailboxStmt) : Store :=
  { s with Mailboxes := commit s.Mailboxes (Mailboxes.exec s.Mailboxes st) }

/-- The row `r` with `Name` and `UIDValidity` replaced. -/
def Mailbox.renamed (n : Option String) (v : Int) (r : Mailbox) : Mailbox :=
  ⟨r.MailboxID, r.NextUID, v, r.Attrs, n, r.DeletedName, r.Subscribed⟩

/-- The row `r` with `UIDValidity` replaced. -/
def Mailbox.withUIDValidity (v : Int) (r : Mailbox) : Mailbox :=
  ⟨r.MailboxID, r.NextUID, v, r.Attrs, r.Name, r.DeletedName, r.Subscribed⟩

/-- Run a list of statements on `Mailboxes`, one after the other. -/
def Store.execMailboxes (s : Store) (sts : List MailboxStmt) : Store :=
  sts.foldl Store.execMailbox s

/-! ## `MailboxSequencing` -/

/-- `Name TEXT PRIMARY KEY`. -/
def MailboxSequencing.pk (q r : MailboxSequencingRow) : Bool := sqlEq q.Name r.Name

/-- `INSERT [OR IGNORE] INTO MailboxSequencing VALUES (name, next)`:
`NextModSequence` is `NOT NULL`. -/
def MailboxSequencing.insert (oc : OnConflict) (t : List MailboxSequencingRow)
    (name : Option String) (next : Option Int) : Except SqlError (List MailboxSequencingRow) :=
  match next with
  | some k => sqlInsert MailboxSequencing.pk (fun _ _ => false) oc t ⟨name, k⟩
  | none => resolve oc t SqlError.notNull

/-- `SELECT NextModSequence FROM MailboxSequencing WHERE Name = name`, first row. -/
def nextModSequenceOf (t : List MailboxSequencingRow) (name : String) : Option Int :=
  (t.find? (fun r => sqlEq r.Name (some name))).map MailboxSequencingRow.NextModSequence

/-! ## `Contacts`, `Labels`, `ConvoContacts`, `ConvoLabels` -/

/-- `ContactID INTEGER PRIMARY KEY`. -/
def Contacts.pk (q r : Contact) : Bool := decide (q.ContactID = r.ContactID)

/-- `INSERT [OR IGNORE] INTO Contacts (ContactID, Hidden, Robot) VALUES (...)`. -/
def Contacts.insert (oc : OnConflict) (t : List Contact) (id : Option Int)
    (hidden robot : Option Bool) : Except SqlError (List Contact) :=
  sqlInsert Contacts.pk (fun _ _ => false) oc t
    ⟨id.getD (nextRowid (t.map Contact.ContactID)), hidden, robot⟩

/-- `LabelID INTEGER PRIMARY KEY`. -/
def Labels.pk (q r : Label) : Bool := decide (q.LabelID = r.LabelID)

/-- `UNIQUE(Label)`. -/
def Labels.uq (q r : Label) : Bool := sqlEq q.Label r.Label

/-- `INSERT [OR IGNORE] INTO Labels (LabelID, Label) VALUES (...)`. -/
def Labels.insert (oc : OnConflict) (t : List Label) (id : Option Int)
    (label : Option String) : Except SqlError (List Label) :=
  sqlInsert Labels.pk Labels.uq oc t ⟨id.getD (nextRowid (t.map Label.LabelID)), label⟩

/-- `UPDATE Labels SET Label = label WHERE LabelID = id`. -/
def Labels.setLabel (t : List Label) (id : Int) (label : Option String) :
    Except SqlError (List Label) :=
  sqlUpdate Labels.uq (fun r => decide (r.LabelID = id)) (fun r => some ⟨r.LabelID, label⟩) t

/-- `DELETE FROM Labels WHERE LabelID = id`. -/
def Labels.delete (t : List Label) (id : Int) : List Label :=
  sqlDelete (fun r => decide (r.LabelID = id)) t

/-- A statement on `Labels`. -/
inductive LabelStmt where
  | insert (oc : OnConflict) (id : Option Int) (label : Option String)
  | setLabel (id : Int) (label : Option String)
  | delete (id : Int)
deriving DecidableEq, Repr

/-- Run one statement on `Labels`. -/
def Labels.exec (t : List Label) : LabelStmt → Except SqlError (List Label)
  | LabelStmt.insert oc id label => Labels.insert oc t id label
  | LabelStmt.setLabel id label => Labels.setLabel t id label
  | LabelStmt.delete id => Except.ok (Labels.delete t id)

/-- Run one statement on the `Labels` table of a store.  The foreign key of
`ConvoLabels` into `Labels` has no action, so `ConvoLabels` is not written. -/
def Store.execLabel (s : Store) (st : LabelStmt) : Store :=
  { s with Labels := commit s.Labels (Labels.exec s.Labels st) }

/-- Run a list of statements on `Labels`. -/
def Store.execLabels (s : Store) (sts : List LabelStmt) : Store :=
  sts.foldl Store.execLabel s

/-- `PRIMARY KEY(ConvoID, ContactID)`: a unique index over two columns that may
both be `NULL`. -/
def ConvoContacts.pk (q r : ConvoContact) : Bool :=
  sqlEq q.ConvoID r.ConvoID && sqlEq q.ContactID r.ContactID

/-- `INSERT [OR IGNORE] INTO ConvoContacts (ConvoID, ContactID) VALUES (...)`. -/
def ConvoContacts.insert (oc : OnConflict) (t : List ConvoContact)
    (convo contact : Option Int) : Except SqlError (List ConvoContact) :=
  sqlInsert ConvoContacts.pk (fun _ _ => false) oc t ⟨convo, contact⟩

/-- `DELETE FROM ConvoContacts WHERE ConvoID IS convo AND ContactID IS contact`. -/
def ConvoContacts.delete (t : List ConvoContact) (convo contact : Option Int) :
    List ConvoContact :=
  sqlDelete (fun r => decide (r = ⟨convo, contact⟩)) t

/-- A statement on `ConvoContacts`. -/
inductive ConvoContactStmt where
  | insert (oc : OnConflict) (convo contact : Option Int)
  | delete (convo contact : Option Int)
deriving DecidableEq, Repr

/-- Run one statement on `ConvoContacts`. -/
def ConvoContacts.exec (t : List ConvoContact) :
    ConvoContactStmt → Except SqlError (List ConvoContact)
  | ConvoContactStmt.insert oc convo contact => ConvoContacts.insert oc t convo contact
  | ConvoContactStmt.delete convo contact => Except.ok (ConvoContacts.delete t convo contact)

/-- Run a list of statements on `ConvoContacts`; a failed one is rolled back. -/
def ConvoContacts.run (t : List ConvoContact) (sts : List ConvoContactStmt) :
    List ConvoContact :=
  sts.foldl (fun acc st => commit acc (ConvoContacts.exec acc st)) t

/-! ## The seed rows of `createSQL` -/

/-- The data effect of executing `createSQL` (source lines 3-187) on a store:
every `CREATE ... IF NOT EXISTS` leaves rows alone, and the four
`INSERT OR IGNORE` statements of lines 167-170 run in order. -/
def createSQL (s : Store) : Store :=
  let c1 := commit s.Contacts
    (Contacts.insert OnConflict.ignore s.Contacts (some 1) (some false) (some false))
  let l1 := commit s.Labels
    (Labels.insert OnConflict.ignore s.Labels (some 1) (some "Personal Mail"))
  let l2 := commit l1 (Labels.insert OnConflict.ignore l1 (some 2) (some "Subscriptions"))
  let l3 := commit l2 (Labels.insert OnConflict.ignore l2 (some 3) (some "Spam and Trash"))
  { s with Contacts := c1, Labels := l3 }

/-! ## `blobs.Blobs` -/

/-- `BlobID INTEGER PRIMARY KEY`; the table has no other key. -/
def Blobs.pk (q r : Blob) : Bool := decide (q.BlobID = r.BlobID)

/-- `INSERT [OR IGNORE] INTO blobs.Blobs (BlobID, SHA256, Deleted, Content) VALUES (...)`. -/
def Blobs.insert (oc : OnConflict) (t : List Blob) (id : Option Int) (sha : Option String)
    (deleted : Option Int) (content : Option (List Nat)) : Except SqlError (List Blob) :=
  sqlInsert Blobs.pk (fun _ _ => false) oc t
    ⟨id.getD (nextRowid (t.map Blob.BlobID)), sha, deleted, content⟩

/-- `UPDATE blobs.Blobs SET SHA256 = ?, Deleted = ?, Content = ? WHERE BlobID = id`. -/
def Blobs.update (t : List Blob) (id : Int) (sha : Option String) (deleted : Option Int)
    (content : Option (List Nat)) : Except SqlError (List Blob) :=
  sqlUpdate (fun _ _ => false) (fun r => decide (r.BlobID = id))
    (fun r => some ⟨r.BlobID, sha, deleted, content⟩) t

/-- `DELETE FROM blobs.Blobs WHERE BlobID = id`. -/
def Blobs.delete (t : List Blob) (id : Int) : List Blob :=
  sqlDelete (fun r => decide (r.BlobID = id)) t

/-- A statement on `blobs.Blobs`. -/
inductive BlobStmt where
  | insert (oc : OnConflict) (id : Option Int) (sha : Option String) (deleted : Option Int)
      (content : Option (List Nat))
  | update (id : Int) (sha : Option String) (deleted : Option Int)
      (content : Option (List Nat))
  | delete (id : Int)
deriving DecidableEq, Repr

/-- Run one statement on `blobs.Blobs`. -/
def Blobs.exec (t : List Blob) : BlobStmt → Except SqlError (List Blob)
  | BlobStmt.insert oc id sha deleted content => Blobs.insert oc t id sha deleted content
  | BlobStmt.update id sha deleted content => Blobs.update t id sha deleted content
  | BlobStmt.delete id => Except.ok (Blobs.delete t id)

/-- Run a list of statements on `blobs.Blobs`; a failed one is rolled back. -/
def Blobs.run (t : List Blob) (sts : List BlobStmt) : List Blob :=
  sts.foldl (fun acc st => commit acc (Blobs.exec acc st)) t

/-! ## `Msgs` -/

/-- The `VALUES` of an insert into `Msgs`; a column left out is `NULL`. -/
structure MsgValues where
  MsgID : Option Int
  StagingID : Option Int
  ModSequence : Option Int
  Seed : Option Int
  RawHash : Option String
  ConvoID : Option Int
  State : Option Int
  ParseError : Option String
  MailboxID : Option Int
  UID : Option Int
  Flags : Option String
  EncodedSize : Option Int
  Date : Option Int
  Expunged : Option Int
  HdrsBlobID : Option Int
  HasUnsubscribe : Option Int

/-- The `SET` clause of an update of `Msgs`: `none` for a column that is not
assigned, otherwise the expression, which may read the old row.  `MsgID` is not
assignable here. -/
structure MsgSet where
  StagingID : Option (Msg → Option Int)
  ModSequence : Option (Msg → Option Int)
  Seed : Option (Msg → Option Int)
  RawHash : Option (Msg → Option String)
  ConvoID : Option (Msg → Option Int)
  State : Option (Msg → Option Int)
  ParseError : Option (Msg → Option String)
  MailboxID : Option (Msg → Option Int)
  UID : Option (Msg → Option Int)
  Flags : Option (Msg → Option String)
  EncodedSize : Option (Msg → Option Int)
  Date : Option (Msg → Option Int)
  Expunged : Option (Msg → Option Int)
  HdrsBlobID : Option (Msg → Option Int)
  HasUnsubscribe : Option (Msg → Option Int)

/-- `MsgID INTEGER PRIMARY KEY`. -/
def Msgs.pk (q r : Msg) : Bool := decide (q.MsgID = r.MsgID)

/-- `UNIQUE (StagingID), -- may be NULL`. -/
def Msgs.uq (q r : Msg) : Bool := sqlEq q.StagingID r.StagingID

/-- `INSERT [OR IGNORE] INTO Msgs VALUES (...)`: `Date` is `NOT NULL`. -/
def Msgs.insert (oc : OnConflict) (t : List Msg) (v : MsgValues) :
    Except SqlError (List Msg) :=
  match v.Date with
  | some d =>
    sqlInsert Msgs.pk Msgs.uq oc t
      ⟨v.MsgID.getD (nextRowid (t.map Msg.MsgID)), v.StagingID, v.ModSequence, v.Seed, v.RawHash, v.ConvoID, v.State, v.ParseError, v.MailboxID, v.UID, v.Flags, v.EncodedSize, d, v.Expunged, v.HdrsBlobID, v.HasUnsubscribe⟩
  | none => resolve oc t SqlError.notNull

/-- The row after a `SET` clause, `none` when `Date` would be `NULL`. -/
def MsgSet.apply (a : MsgSet) (r : Msg) : Option Msg :=
  match setCol a.Date (some r.Date) r with
  | some d =>
    some ⟨r.MsgID, setCol a.StagingID r.StagingID r, setCol a.ModSequence r.ModSequence r, setCol a.Seed r.Seed r, setCol a.RawHash r.RawHash r, setCol a.ConvoID r.ConvoID r, setCol a.State r.State r, setCol a.ParseError r.ParseError r, setCol a.MailboxID r.MailboxID r, setCol a.UID r.UID r, setCol a.Flags r.Flags r, setCol a.EncodedSize r.EncodedSize r, d, setCol a.Expunged r.Expunged r, setCol a.HdrsBlobID r.HdrsBlobID r, setCol a.HasUnsubscribe r.HasUnsubscribe r⟩
  | none => none

/-- `UPDATE Msgs SET ... WHERE MsgID = id`.  The index on `StagingID` is consulted
only when `StagingID` is assigned. -/
def Msgs.update (t : List Msg) (id : Int) (a : MsgSet) : Except SqlError (List Msg) :=
  sqlUpdate (fun q r => a.StagingID.isSome && Msgs.uq q r)
    (fun r => decide (r.MsgID = id)) a.apply t

/-- `DELETE FROM Msgs WHERE MsgID = id`. -/
def Msgs.delete (t : List Msg) (id : Int) : List Msg :=
  sqlDelete (fun r => decide (r.MsgID = id)) t

/-- A statement on `Msgs`. -/
inductive MsgStmt where
  | insert (oc : OnConflict) (v : MsgValues)
  | update (id : Int) (a : MsgSet)
  | delete (id : Int)

/-- Run one statement on `Msgs`. -/
def Msgs.exec (t : List Msg) : MsgStmt → Except SqlError (List Msg)
  | MsgStmt.insert oc v => Msgs.insert oc t v
  | MsgStmt.update id a => Msgs.update t id a
  | MsgStmt.delete id => Except.ok (Msgs.delete t id)

/-- Run a list of statements on `Msgs`; a failed one is rolled back. -/
def Msgs.run (t : List Msg) (sts : List MsgStmt) : List Msg :=
  sts.foldl (fun acc st => commit acc (Msgs.exec acc st)) t

/-! ## Properties of two rows of one table -/

/-- Live names do not collide and rowids differ: what the keys of `Mailboxes` ask
of two rows. -/
def Mailboxes.Compatible (a b : Mailbox) : Prop :=
  a.MailboxID ≠ b.MailboxID ∧ sqlEq a.Name b.Name = false

/-- Two rows do not carry the same key of non-NULL components. -/
def ConvoContacts.Compatible (a b : ConvoContact) : Prop :=
  ConvoContacts.pk a b = false

/-- Two rows differ in rowid and do not share a non-NULL `StagingID`. -/
def Msgs.Compatible (a b : Msg) : Prop :=
  a.MsgID ≠ b.MsgID ∧ sqlEq a.StagingID b.StagingID = false

/-- The row an insert into `Msgs` stores when the rowid is left to the engine. -/
def MsgValues.row (v : MsgValues) (t : List Msg) (d : Int) : Msg :=
  ⟨nextRowid (t.map Msg.MsgID), v.StagingID, v.ModSequence, v.Seed, v.RawHash, v.ConvoID,
    v.State, v.ParseError, v.MailboxID, v.UID, v.Flags, v.EncodedSize, d, v.Expunged,
    v.HdrsBlobID, v.HasUnsubscribe⟩

/-- Two rows differ in rowid and do not share a non-NULL `Label`. -/
def Labels.Compatible (a b : Label) : Prop :=
  a.LabelID ≠ b.LabelID ∧ sqlEq a.Label b.Label = false

instance (a b : Mailbox) : Decidable (Mailboxes.Compatible a b) :=
  inferInstanceAs (Decidable (_ ∧ _))

instance (a b : ConvoContact) : Decidable (ConvoContacts.Compatible a b) :=
  inferInstanceAs (Decidable (_ = _))

instance (a b : Msg) : Decidable (Msgs.Compatible a b) :=
  inferInstanceAs (Decidable (_ ∧ _))

instance (a b : Label) : Decidable (Labels.Compatible a b) :=
  inferInstanceAs (Decidable (_ ∧ _))

/-! ## Example data -/

/-- Two live mailboxes, as left by creating "Inbox" and then "Sent". -/
def exampleMailboxes : List Mailbox :=
  [⟨1, 1, 1, none, some "Inbox", none, none⟩, ⟨2, 1, 2, none, some "Sent", none, none⟩]

/-- The table `exampleMailboxes` after mailbox 1 was renamed to "Archive". -/
def exampleRenamed : List Mailbox :=
  [⟨1, 1, 3, none, some "Archive", none, none⟩, ⟨2, 1, 2, none, some "Sent", none, none⟩]

/-- A store holding `exampleMailboxes` and the sequencing row of "Inbox" at 3. -/
def exampleStore : Store :=
  ⟨[], [⟨1, some true, some false⟩], [], [⟨some "Inbox", 3⟩], exampleMailboxes,
    [⟨1, some "Personal Mail"⟩], [], [], [⟨some 1, some 7⟩], [], [], [], []⟩

/-- A draft: every column `NULL` but `Date`. -/
def exampleDraft : MsgValues :=
  ⟨none, none, none, none, none, none, none, none, none, none, none, none, some 1700000000,
    none, none, none⟩

/-- An ingested message with `StagingID` 42. -/
def exampleStaged : MsgValues :=
  ⟨none, some 42, none, none, some "hash", none, none, none, none, none, none, none,
    some 1700000000, none, none, none⟩

/-! ## Lemmas on the statement core -/

theorem sqlMax_eq_none {l : List Int} : sqlMax l = none ↔ l = [] := by
  cases l with
  | nil => simp [sqlMax]
  | cons x xs =>
    simp only [sqlMax]
    cases sqlMax xs <;> simp

theorem sqlMax_le {l : List Int} {m : Int} (h : sqlMax l = some m) : ∀ x ∈ l, x ≤ m := by
  induction l generalizing m with
  | nil => simp
  | cons y ys ih =>
    simp only [sqlMax] at h
    cases hys : sqlMax ys with
    | none =>
      rw [hys] at h
      have hnil : ys = [] := sqlMax_eq_none.mp hys
      simp only [Option.some.injEq] at h
      subst hnil
      intro x hx
      simp only [List.mem_singleton] at hx
      omega
    | some m' =>
      rw [hys] at h
      simp only [Option.some.injEq] at h
      intro x hx
      rcases List.mem_cons.mp hx with rfl | hx
      · rw [← h]; exact le_max_left _ _
      · have := ih hys x hx
        rw [← h]; exact le_trans this (le_max_right _ _)

theorem sqlMax_mem {l : List Int} {m : Int} (h : sqlMax l = some m) : m ∈ l := by
  induction l generalizing m with
  | nil => simp [sqlMax] at h
  | cons y ys ih =>
    simp only [sqlMax] at h
    cases hys : sqlMax ys with
    | none =>
      rw [hys] at h
      simp only [Option.some.injEq] at h
      simp [h]
    | some m' =>
      rw [hys] at h
      simp only [Option.some.injEq] at h
      rcases max_choice y m' with hc | hc
      · rw [hc] at h; simp [h]
      · rw [hc] at h; subst h; exact List.mem_cons_of_mem _ (ih hys)

theorem sqlMax_of_mem {l : List Int} {x : Int} (hx : x ∈ l) : ∃ m, sqlMax l = some m := by
  cases h : sqlMax l with
  | none => rw [sqlMax_eq_none.mp h] at hx; simp at hx
  | some m => exact ⟨m, rfl⟩

theorem nextRowid_gt {ids : List Int} : ∀ x ∈ ids, x < nextRowid ids := by
  intro x hx
  obtain ⟨m, hm⟩ := sqlMax_of_mem hx
  have := sqlMax_le hm x hx
  simp only [nextRowid, hm]
  omega

theorem maxUIDValidity_le {t : List Mailbox} {v : Int} (h : maxUIDValidity t = some v) :
    ∀ q ∈ t, q.UIDValidity ≤ v :=
  fun q hq => sqlMax_le h q.UIDValidity (List.mem_map_of_mem _ hq)

theorem maxUIDValidity_of_mem {t : List Mailbox} {q : Mailbox} (hq : q ∈ t) :
    ∃ v, maxUIDValidity t = some v :=
  sqlMax_of_mem (List.mem_map_of_mem Mailbox.UIDValidity hq)

theorem sqlUpdate_ok {Row : Type} {uq : Row → Row → Bool} {p : Row → Bool}
    {f : Row → Option Row} {t t' : List Row} (h : sqlUpdate uq p f t = Except.ok t') :
    t' = t.map (fun r => if p r then (f r).getD r else r) := by
  unfold sqlUpdate at h
  split at h
  · cases h
  · split at h
    · cases h
    · injection h with h; exact h.symm

theorem sqlUpdate_eq_ok {Row : Type} {uq : Row → Row → Bool} {p : Row → Bool}
    {f : Row → Option Row} {t : List Row} (g : Row → Row)
    (hf : ∀ r ∈ t, p r = true → f r = some (g r))
    (huq : ∀ r ∈ t, p r = true → ∀ q ∈ t, p q = false → uq q (g r) = false) :
    sqlUpdate uq p f t = Except.ok (t.map (fun r => if p r then g r else r)) := by
  unfold sqlUpdate
  split
  · rename_i h
    rw [List.any_eq_true] at h
    obtain ⟨r, hr, hc⟩ := h
    rw [Bool.and_eq_true] at hc
    rw [hf r hr hc.1] at hc
    simp at hc
  · split
    · rename_i h
      rw [List.any_eq_true] at h
      obtain ⟨r, hr, hc⟩ := h
      rw [Bool.and_eq_true, List.any_eq_true] at hc
      obtain ⟨hp, q, hq, hqc⟩ := hc
      rw [Bool.and_eq_true, hf r hr hp] at hqc
      have hpq : p q = false := by
        have := hqc.1
        cases hq' : p q <;> simp_all
      have := huq r hr hp q hq hpq
      simp [this] at hqc
    · congr 1
      apply List.map_congr_left
      intro r hr
      by_cases hp : p r = true
      · simp [hp, hf r hr hp]
      · simp [hp]

theorem sqlUpdate_unique {Row : Type} {uq : Row → Row → Bool} {p : Row → Bool}
    {f : Row → Option Row} {t : List Row} (g : Row → Row)
    (hf : ∀ r ∈ t, p r = true → f r = some (g r))
    {r q : Row} (hr : r ∈ t) (hp : p r = true) (hq : q ∈ t) (hpq : p q = false)
    (hc : uq q (g r) = true) :
    sqlUpdate uq p f t = Except.error SqlError.unique := by
  unfold sqlUpdate
  split
  · rename_i h
    rw [List.any_eq_true] at h
    obtain ⟨r, hr, hc⟩ := h
    rw [Bool.and_eq_true] at hc
    rw [hf r hr hc.1] at hc
    simp at hc
  · rw [if_pos]
    rw [List.any_eq_true]
    refine ⟨r, hr, ?_⟩
    rw [Bool.and_eq_true, List.any_eq_true]
    refine ⟨hp, q, hq, ?_⟩
    rw [hf r hr hp]
    simp [hpq, hc]

theorem sqlEq_comm {α : Type} [DecidableEq α] (a b : Option α) : sqlEq a b = sqlEq b a := by
  cases a <;> cases b <;> simp only [sqlEq]
  exact decide_eq_decide.mpr eq_comm

theorem sqlEq_none_right {α : Type} [DecidableEq α] (a : Option α) : sqlEq a none = false := by
  cases a <;> rfl

theorem sqlEq_eq_true {α : Type} [DecidableEq α] {a b : Option α} :
    sqlEq a b = true ↔ ∃ x, a = some x ∧ b = some x := by
  cases a <;> cases b <;> simp [sqlEq]
  exact eq_comm

theorem sqlInsert_free {Row : Type} {pk uq : Row → Row → Bool} (oc : OnConflict)
    {t : List Row} {r : Row} (h : ∀ q ∈ t, pk q r = false ∧ uq q r = false) :
    sqlInsert pk uq oc t r = Except.ok (t ++ [r]) := by
  unfold sqlInsert
  have h1 : t.any (fun q => pk q r) = false := List.any_eq_false.mpr (fun q hq => by simp [(h q hq).1])
  have h2 : t.any (fun q => uq q r) = false := List.any_eq_false.mpr (fun q hq => by simp [(h q hq).2])
  simp [h1, h2]

theorem sqlInsert_clash {Row : Type} {pk uq : Row → Row → Bool} {t : List Row} {q r : Row}
    (hq : q ∈ t) (h : pk q r = true ∨ uq q r = true) :
    (∃ e, sqlInsert pk uq OnConflict.abort t r = Except.error e) ∧
    sqlInsert pk uq OnConflict.ignore t r = Except.ok t := by
  unfold sqlInsert
  by_cases h1 : t.any (fun q => pk q r) = true
  · simp [h1, resolve]
  · have h2 : t.any (fun q => uq q r) = true := by
      rcases h with h | h
      · exact absurd (List.any_eq_true.mpr ⟨q, hq, h⟩) h1
      · exact List.any_eq_true.mpr ⟨q, hq, h⟩
    simp [h1, h2, resolve]

theorem sqlInsert_unique {Row : Type} {pk uq : Row → Row → Bool} {t : List Row} {q r : Row}
    (hpk : ∀ q ∈ t, pk q r = false) (hq : q ∈ t) (h : uq q r = true) :
    sqlInsert pk uq OnConflict.abort t r = Except.error SqlError.unique := by
  unfold sqlInsert
  have h1 : t.any (fun q => pk q r) = false := List.any_eq_false.mpr (fun q hq => by simp [hpk q hq])
  have h2 : t.any (fun q => uq q r) = true := List.any_eq_true.mpr ⟨q, hq, h⟩
  simp [h1, h2, resolve]

theorem sqlInsert_ok_cases {Row : Type} {pk uq : Row → Row → Bool} {oc : OnConflict}
    {t t' : List Row} {r : Row} (h : sqlInsert pk uq oc t r = Except.ok t') :
    t' = t ∨ (t' = t ++ [r] ∧ ∀ q ∈ t, pk q r = false ∧ uq q r = false) := by
  unfold sqlInsert at h
  split at h
  · cases oc
    · cases h
    · left; injection h with h; exact h.symm
  · split at h
    · cases oc
      · cases h
      · left; injection h with h; exact h.symm
    · rename_i h1 h2
      right
      injection h with h
      refine ⟨h.symm, fun q hq => ⟨?_, ?_⟩⟩
      · cases hc : pk q r with
        | false => rfl
        | true => exact absurd (List.any_eq_true.mpr ⟨q, hq, hc⟩) h1
      · cases hc : uq q r with
        | false => rfl
        | true => exact absurd (List.any_eq_true.mpr ⟨q, hq, hc⟩) h2

theorem resolve_commit {Row : Type} (oc : OnConflict) (t : List Row) (e : SqlError) :
    commit t (resolve oc t e) = t := by
  cases oc <;> rfl

/-- An insert keeps a pairwise property that holds between the stored rows and
any row passing the key checks. -/
theorem sqlInsert_pairwise {Row : Type} {pk uq : Row → Row → Bool} {oc : OnConflict}
    {R : Row → Row → Prop} {t t' : List Row} {r : Row} (hR : t.Pairwise R)
    (hnew : ∀ q ∈ t, pk q r = false → uq q r = false → R q r)
    (h : sqlInsert pk uq oc t r = Except.ok t') : t'.Pairwise R := by
  rcases sqlInsert_ok_cases h with rfl | ⟨rfl, hfree⟩
  · exact hR
  · rw [List.pairwise_append]
    refine ⟨hR, List.pairwise_singleton _ _, ?_⟩
    intro q hq x hx
    rw [List.mem_singleton] at hx
    subst hx
    exact hnew q hq (hfree q hq).1 (hfree q hq).2

theorem sqlDelete_pairwise {Row : Type} {p : Row → Bool} {R : Row → Row → Prop}
    {t : List Row} (hR : t.Pairwise R) : (sqlDelete p t).Pairwise R :=
  List.Pairwise.sublist (List.filter_sublist t) hR

/-- What the checks of a successful update establish. -/
theorem sqlUpdate_ok_checks {Row : Type} {uq : Row → Row → Bool} {p : Row → Bool}
    {f : Row → Option Row} {t t' : List Row} (h : sqlUpdate uq p f t = Except.ok t') :
    ∀ r ∈ t, p r = true → ∃ r', f r = some r' ∧ ∀ q ∈ t, p q = false → uq q r' = false := by
  unfold sqlUpdate at h
  split at h
  · cases h
  · rename_i h1
    split at h
    · cases h
    · rename_i h2
      intro r hr hp
      cases hf : f r with
      | none =>
        exfalso
        apply h1
        rw [List.any_eq_true]
        exact ⟨r, hr, by simp [hp, hf]⟩
      | some r' =>
        refine ⟨r', rfl, fun q hq hpq => ?_⟩
        cases hc : uq q r' with
        | false => rfl
        | true =>
          exfalso
          apply h2
          rw [List.any_eq_true]
          refine ⟨r, hr, ?_⟩
          rw [Bool.and_eq_true, List.any_eq_true]
          exact ⟨hp, q, hq, by simp [hpq, hf, hc]⟩

/-- An update keeps a symmetric pairwise property `R` when no two selected rows
can satisfy `R` together and the new row inherits `R` from the old one against
every row it passed the index check with. -/
theorem sqlUpdate_pairwise {Row : Type} {uq : Row → Row → Bool} {p : Row → Bool}
    {f : Row → Option Row} {R : Row → Row → Prop} {t t' : List Row}
    (hsymm : ∀ a b, R a b → R b a) (hR : t.Pairwise R)
    (hone : ∀ a b, p a = true → p b = true → ¬ R a b)
    (hstep : ∀ r r' q, f r = some r' → p r = true → p q = false → R q r →
      uq q r' = false → R q r')
    (h : sqlUpdate uq p f t = Except.ok t') : t'.Pairwise R := by
  have hchk := sqlUpdate_ok_checks h
  rw [sqlUpdate_ok h, List.pairwise_map]
  refine List.Pairwise.imp_of_mem ?_ hR
  intro a b ha hb hab
  by_cases hpa : p a = true
  · by_cases hpb : p b = true
    · exact absurd hab (hone a b hpa hpb)
    · have hpb' : p b = false := by simpa using hpb
      obtain ⟨a', hfa, hchka⟩ := hchk a ha hpa
      simp only [hpa, hpb, if_true, if_false, hfa, Option.getD_some]
      exact hsymm _ _ (hstep a a' b hfa hpa hpb' (hsymm _ _ hab) (hchka b hb hpb'))
  · have hpa' : p a = false := by simpa using hpa
    by_cases hpb : p b = true
    · obtain ⟨b', hfb, hchkb⟩ := hchk b hb hpb
      simp only [hpa, hpb, if_true, if_false, hfb, Option.getD_some]
      exact hstep b b' a hfb hpb hpa' hab (hchkb a ha hpa')
    · simp only [hpa, hpb, if_false]
      exact hab

/-- The trigger body never fails: on a table with rows the maximum exists. -/
theorem trigger_eq (new : Mailbox) (t : List Mailbox) :
    MailboxRenameUIDValidity new t = Except.ok (t.map (fun r =>
      if r.MailboxID = new.MailboxID then
        r.withUIDValidity (sqlSucc ((maxUIDValidity t).getD 0))
      else r)) := by
  unfold MailboxRenameUIDValidity Mailboxes.updateRows
  rw [sqlUpdate_eq_ok (Mailbox.withUIDValidity (sqlSucc ((maxUIDValidity t).getD 0)))]
  · congr 1
    apply List.map_congr_left
    intro r _
    by_cases h : r.MailboxID = new.MailboxID <;> simp [h]
  · intro r hr _
    obtain ⟨v, hv⟩ := maxUIDValidity_of_mem hr
    simp [MailboxSet.apply, bumpUIDValidity, setCol, hv, Mailbox.withUIDValidity]
  · intro r _ _ q _ _
    simp [bumpUIDValidity]

theorem setName_apply (n : Option String) (r : Mailbox) :
    (setName n).apply r = some (r.renamed n r.UIDValidity) := by
  simp [MailboxSet.apply, setName, setCol, Mailbox.renamed]

theorem updateRows_setName_ok {t : List Mailbox} {id : Int} {n : Option String}
    (h : ∀ r ∈ t, r.MailboxID = id → ∀ q ∈ t, q.MailboxID ≠ id → sqlEq q.Name n = false) :
    Mailboxes.updateRows t id (setName n) = Except.ok (t.map (fun r =>
      if r.MailboxID = id then r.renamed n r.UIDValidity else r)) := by
  unfold Mailboxes.updateRows
  rw [sqlUpdate_eq_ok (fun r => r.renamed n r.UIDValidity)]
  · congr 1
    apply List.map_congr_left
    intro r _
    by_cases hr : r.MailboxID = id <;> simp [hr]
  · intro r _ _
    exact setName_apply n r
  · intro r hr hp q hq hpq
    have h1 : r.MailboxID = id := by simpa using hp
    have h2 : q.MailboxID ≠ id := by simpa using hpq
    simp [Mailboxes.uq, Mailbox.renamed, h r hr h1 q hq h2]

theorem updateRows_setName_clash {t : List Mailbox} {id : Int} {n : Option String}
    {r q : Mailbox} (hr : r ∈ t) (hrid : r.MailboxID = id) (hq : q ∈ t)
    (hqid : q.MailboxID ≠ id) (hc : sqlEq q.Name n = true) :
    Mailboxes.updateRows t id (setName n) = Except.error SqlError.unique := by
  unfold Mailboxes.updateRows
  apply sqlUpdate_unique (fun r => r.renamed n r.UIDValidity) (fun r _ _ => setName_apply n r)
    hr (by simpa using hrid) hq (by simpa using hqid)
  simp [Mailboxes.uq, Mailbox.renamed, setName, hc]

theorem maxUIDValidity_map {t : List Mailbox} (f : Mailbox → Mailbox)
    (hf : ∀ r ∈ t, (f r).UIDValidity = r.UIDValidity) :
    maxUIDValidity (t.map f) = maxUIDValidity t := by
  unfold maxUIDValidity
  rw [List.map_map]
  congr 1
  apply List.map_congr_left
  intro r hr
  exact hf r hr

/-- A rename that meets no other row holding the new name succeeds, and the table
it leaves is the old one with `Name` and `UIDValidity` of the renamed row replaced. -/
theorem rename_ok {t : List Mailbox} {id : Int} {n : Option String}
    (h : ∀ r ∈ t, r.MailboxID = id → ∀ q ∈ t, q.MailboxID ≠ id → sqlEq q.Name n = false) :
    Mailboxes.rename t id n = Except.ok (t.map (fun r =>
      if r.MailboxID = id then r.renamed n (sqlSucc ((maxUIDValidity t).getD 0)) else r)) := by
  unfold Mailboxes.rename Mailboxes.update
  rw [updateRows_setName_ok h]
  have hmax : maxUIDValidity (t.map (fun r =>
      if r.MailboxID = id then r.renamed n r.UIDValidity else r)) = maxUIDValidity t := by
    apply maxUIDValidity_map
    intro r _
    by_cases hr : r.MailboxID = id <;> simp [hr, Mailbox.renamed]
  simp only [setName, Option.isSome_some, if_true]
  cases hfind : List.find? (fun r => decide (r.MailboxID = id))
      (t.map (fun r => if r.MailboxID = id then r.renamed n r.UIDValidity else r)) with
  | none =>
    simp only
    congr 1
    apply List.map_congr_left
    intro r hr
    have := List.find?_eq_none.mp hfind
      (if r.MailboxID = id then r.renamed n r.UIDValidity else r)
      (List.mem_map_of_mem _ hr)
    by_cases hid : r.MailboxID = id
    · simp [hid, Mailbox.renamed] at this
    · simp [hid]
  | some new =>
    simp only
    have hnew : new.MailboxID = id := by
      have := List.find?_some hfind
      simpa using this
    rw [trigger_eq, hmax, hnew, List.map_map]
    congr 1
    apply List.map_congr_left
    intro r _
    by_cases hid : r.MailboxID = id
    · simp [hid, Mailbox.renamed, Mailbox.withUIDValidity]
    · simp [hid]

/-- A rename onto a name held by another row fails. -/
theorem rename_clash {t : List Mailbox} {id : Int} {n : Option String}
    {r q : Mailbox} (hr : r ∈ t) (hrid : r.MailboxID = id) (hq : q ∈ t)
    (hqid : q.MailboxID ≠ id) (hc : sqlEq q.Name n = true) :
    Mailboxes.rename t id n = Except.error SqlError.unique := by
  unfold Mailboxes.rename Mailboxes.update
  rw [updateRows_setName_clash hr hrid hq hqid hc]

/-- What a successful rename leaves. -/
theorem rename_ok_inv {t t' : List Mailbox} {id : Int} {n : Option String}
    (h : Mailboxes.rename t id n = Except.ok t') :
    t' = t.map (fun r =>
      if r.MailboxID = id then r.renamed n (sqlSucc ((maxUIDValidity t).getD 0)) else r) := by
  by_cases hc : ∀ r ∈ t, r.MailboxID = id → ∀ q ∈ t, q.MailboxID ≠ id → sqlEq q.Name n = false
  · rw [rename_ok hc] at h
    injection h with h
    exact h.symm
  · push_neg at hc
    obtain ⟨r, hr, hrid, q, hq, hqid, hqc⟩ := hc
    have hqc' : sqlEq q.Name n = true := by simpa using hqc
    rw [rename_clash hr hrid hq hqid hqc'] at h
    cases h

/-- A rename succeeds only when no other row holds the new name. -/
theorem rename_ok_free {t t' : List Mailbox} {id : Int} {n : Option String}
    (h : Mailboxes.rename t id n = Except.ok t') :
    ∀ r ∈ t, r.MailboxID = id → ∀ q ∈ t, q.MailboxID ≠ id → sqlEq q.Name n = false := by
  intro r hr hrid q hq hqid
  cases hc : sqlEq q.Name n with
  | false => rfl
  | true =>
    rw [rename_clash hr hrid hq hqid hc] at h
    cases h

/-! ## Lemmas on `Mailboxes` statements -/

theorem mailboxSet_apply_some {a : MailboxSet} {r r' : Mailbox} (h : a.apply r = some r') :
    r'.MailboxID = r.MailboxID ∧ r'.Name = setCol a.Name r.Name r := by
  unfold MailboxSet.apply at h
  split at h
  · injection h with h
    subst h
    exact ⟨rfl, rfl⟩
  · cases h

theorem mailboxes_insert_pairwise {oc : OnConflict} {t t' : List Mailbox} {v : MailboxValues}
    (hR : t.Pairwise Mailboxes.Compatible) (h : Mailboxes.insert oc t v = Except.ok t') :
    t'.Pairwise Mailboxes.Compatible := by
  unfold Mailboxes.insert at h
  split at h
  · refine sqlInsert_pairwise hR ?_ h
    intro q _ hpk huq
    exact ⟨by simpa [Mailboxes.pk] using hpk, by simpa [Mailboxes.uq] using huq⟩
  · cases oc
    · cases h
    · injection h with h
      rw [← h]
      exact hR

theorem mailboxes_updateRows_pairwise {t t' : List Mailbox} {id : Int} {a : MailboxSet}
    (hR : t.Pairwise Mailboxes.Compatible) (h : Mailboxes.updateRows t id a = Except.ok t') :
    t'.Pairwise Mailboxes.Compatible := by
  unfold Mailboxes.updateRows at h
  refine sqlUpdate_pairwise ?_ hR ?_ ?_ h
  · intro x y hxy
    exact ⟨fun e => hxy.1 e.symm, by rw [sqlEq_comm]; exact hxy.2⟩
  · intro x y hx hy hxy
    have h1 : x.MailboxID = id := by simpa using hx
    have h2 : y.MailboxID = id := by simpa using hy
    exact hxy.1 (h1.trans h2.symm)
  · intro r r' q hf _ _ hqr huq
    obtain ⟨hid, hname⟩ := mailboxSet_apply_some hf
    refine ⟨by rw [hid]; exact hqr.1, ?_⟩
    cases ha : a.Name with
    | none =>
      rw [hname, ha]
      exact hqr.2
    | some g =>
      simpa [ha, Mailboxes.uq] using huq

theorem mailboxes_update_pairwise {t t' : List Mailbox} {id : Int} {a : MailboxSet}
    (hR : t.Pairwise Mailboxes.Compatible) (h : Mailboxes.update t id a = Except.ok t') :
    t'.Pairwise Mailboxes.Compatible := by
  unfold Mailboxes.update at h
  split at h
  · cases h
  · rename_i mid hmid
    have hmidR := mailboxes_updateRows_pairwise hR hmid
    split at h
    · split at h
      · injection h with h
        rw [← h]
        exact hmidR
      · rename_i new _
        rw [trigger_eq] at h
        injection h with h
        rw [← h, List.pairwise_map]
        refine List.Pairwise.imp ?_ hmidR
        intro x y hxy
        by_cases hx : x.MailboxID = new.MailboxID <;> by_cases hy : y.MailboxID = new.MailboxID <;>
          simp only [hx, hy, if_true, if_false] <;>
          exact ⟨hxy.1, hxy.2⟩
    · injection h with h
      rw [← h]
      exact hmidR

theorem mailboxes_exec_pairwise {t : List Mailbox} (st : MailboxStmt)
    (hR : t.Pairwise Mailboxes.Compatible) :
    (commit t (Mailboxes.exec t st)).Pairwise Mailboxes.Compatible := by
  cases hres : Mailboxes.exec t st with
  | error e => exact hR
  | ok t' =>
    simp only [commit]
    cases st with
    | insert oc v => exact mailboxes_insert_pairwise hR hres
    | update id a => exact mailboxes_update_pairwise hR hres
    | delete id =>
      simp only [Mailboxes.exec] at hres
      injection hres with hres
      rw [← hres]
      exact sqlDelete_pairwise hR

theorem execMailboxes_pairwise (sts : List MailboxStmt) (s : Store)
    (hR : s.Mailboxes.Pairwise Mailboxes.Compatible) :
    (s.execMailboxes sts).Mailboxes.Pairwise Mailboxes.Compatible := by
  induction sts generalizing s with
  | nil => exact hR
  | cons st sts ih =>
    simp only [Store.execMailboxes, List.foldl_cons]
    exact ih (s.execMailbox st) (mailboxes_exec_pairwise st hR)

theorem execMailboxes_frame (sts : List MailboxStmt) (s : Store) :
    (s.execMailboxes sts).MailboxSequencing = s.MailboxSequencing := by
  induction sts generalizing s with
  | nil => rfl
  | cons st sts ih =>
    simp only [Store.execMailboxes, List.foldl_cons]
    exact ih (s.execMailbox st)

theorem mailboxes_insert_fresh (oc : OnConflict) (t : List Mailbox) (nu uv : Int)
    (attrs : Option Int) (n deleted : Option String) (sub : Option Bool)
    (hn : ∀ q ∈ t, sqlEq q.Name n = false) :
    Mailboxes.insert oc t ⟨none, some nu, some uv, attrs, n, deleted, sub⟩
      = Except.ok (t ++ [⟨nextRowid (t.map Mailbox.MailboxID), nu, uv, attrs, n, deleted, sub⟩]) := by
  simp only [Mailboxes.insert, Option.getD_none]
  apply sqlInsert_free
  intro q hq
  refine ⟨?_, by simpa [Mailboxes.uq] using hn q hq⟩
  have := nextRowid_gt q.MailboxID (List.mem_map_of_mem Mailbox.MailboxID hq)
  simp only [Mailboxes.pk, decide_eq_false_iff_not]
  omega

theorem mailboxes_insert_taken {t : List Mailbox} {q : Mailbox} (v : MailboxValues)
    (hq : q ∈ t) (hc : sqlEq q.Name v.Name = true) :
    (∃ e, Mailboxes.insert OnConflict.abort t v = Except.error e) ∧
    Mailboxes.insert OnConflict.ignore t v = Except.ok t := by
  unfold Mailboxes.insert
  split
  · exact sqlInsert_clash hq (Or.inr (by simpa [Mailboxes.uq] using hc))
  · exact ⟨⟨_, rfl⟩, rfl⟩

/-! ## The claims on `Mailboxes` -/

/-- C1, as the code has it: on a table whose largest `UIDValidity` is a 64-bit
integer, a rename of the mailbox row `m` that succeeds leaves `m` with
`UIDValidity` equal to the maximum `UIDValidity` over all rows right before the
trigger ran (which is also the maximum before the statement), plus one; the new
value is strictly greater than the old value of `m` and than the value of every
other row. -/
theorem rename_UIDValidity_is_max_plus_one
    (t t' : List Mailbox) (m : Mailbox) (newName : Option String) (hm : m ∈ t)
    (hint : ∀ v, maxUIDValidity t = some v → int64Min ≤ v ∧ v ≤ int64Max)
    (h : Mailboxes.rename t m.MailboxID newName = Except.ok t') :
    ∃ mid v,
      Mailboxes.updateRows t m.MailboxID (setName newName) = Except.ok mid ∧
      maxUIDValidity mid = some v ∧
      maxUIDValidity t = some v ∧
      m.renamed newName (v + 1) ∈ t' ∧
      ∀ m' ∈ t', m'.MailboxID = m.MailboxID →
        m'.UIDValidity = v + 1 ∧
        m.UIDValidity < m'.UIDValidity ∧
        (∀ q ∈ t, q.UIDValidity < m'.UIDValidity) ∧
        (∀ q ∈ t', q.MailboxID ≠ m.MailboxID → q.UIDValidity < m'.UIDValidity) := by
  obtain ⟨v, hv⟩ := maxUIDValidity_of_mem hm
  have hfree := rename_ok_free h
  have ht' := rename_ok_inv h
  have hle := maxUIDValidity_le hv
  have hs : sqlSucc ((maxUIDValidity t).getD 0) = v + 1 := by
    rw [hv, Option.getD_some]
    unfold sqlSucc
    rw [if_pos (hint v hv)]
  rw [hs] at ht'
  refine ⟨_, v, updateRows_setName_ok hfree, ?_, hv, ?_, ?_⟩
  · rw [← hv]
    apply maxUIDValidity_map
    intro r _
    by_cases hr : r.MailboxID = m.MailboxID <;> simp [hr, Mailbox.renamed]
  · rw [ht']
    apply List.mem_map.mpr
    exact ⟨m, hm, by simp⟩
  · intro m' hm' hid
    rw [ht'] at hm'
    obtain ⟨r, hr, hrm⟩ := List.mem_map.mp hm'
    have huv : m'.UIDValidity = v + 1 := by
      by_cases hrid : r.MailboxID = m.MailboxID
      · rw [if_pos hrid] at hrm
        rw [← hrm]
        simp [Mailbox.renamed]
      · rw [if_neg hrid] at hrm
        rw [hrm] at hrid
        exact absurd hid hrid
    refine ⟨huv, ?_, ?_, ?_⟩
    · have := hle m hm
      omega
    · intro q hq
      have := hle q hq
      omega
    · intro q hq hqid
      rw [ht'] at hq
      obtain ⟨r', hr', hrq⟩ := List.mem_map.mp hq
      by_cases hrid : r'.MailboxID = m.MailboxID
      · rw [if_pos hrid] at hrq
        rw [← hrq] at hqid
        simp [Mailbox.renamed] at hqid
        exact absurd hrid hqid
      · rw [if_neg hrid] at hrq
        have := hle r' hr'
        rw [← hrq]
        omega

/-- C1 as stated fails above the 64-bit range.  With row 1 at `int64Max` and row 2
at the `REAL` `2^63`, renaming row 1 stores `max + 1` as computed by the engine,
`2^63` again: equal to row 2, not greater.  The `REAL` is reached from integers
alone: on the one-row table at `int64Max` a first rename stores `2^63` and a
second rename leaves `2^63`, which is neither the maximum plus one nor greater
than the value the row had. -/
theorem rename_above_int64 :
    Mailboxes.rename
        [⟨1, 1, 9223372036854775807, none, some "Inbox", none, none⟩,
         ⟨2, 1, 9223372036854775808, none, some "Sent", none, none⟩] 1 (some "Archive")
      = Except.ok
        [⟨1, 1, 9223372036854775808, none, some "Archive", none, none⟩,
         ⟨2, 1, 9223372036854775808, none, some "Sent", none, none⟩] ∧
    Mailboxes.rename [⟨1, 1, 9223372036854775807, none, some "Inbox", none, none⟩] 1
        (some "Archive")
      = Except.ok [⟨1, 1, 9223372036854775808, none, some "Archive", none, none⟩] ∧
    Mailboxes.rename [⟨1, 1, 9223372036854775808, none, some "Archive", none, none⟩] 1
        (some "Inbox")
      = Except.ok [⟨1, 1, 9223372036854775808, none, some "Inbox", none, none⟩] ∧
    ¬ (∀ (t t' : List Mailbox) (m : Mailbox) (newName : Option String), m ∈ t →
        Mailboxes.rename t m.MailboxID newName = Except.ok t' →
        ∀ m' ∈ t', m'.MailboxID = m.MailboxID →
          (∀ v, maxUIDValidity t = some v → m'.UIDValidity = v + 1) ∧
          m.UIDValidity < m'.UIDValidity ∧
          (∀ q ∈ t', q.MailboxID ≠ m.MailboxID → q.UIDValidity < m'.UIDValidity)) := by
  refine ⟨rfl, rfl, rfl, fun hall => ?_⟩
  have h := hall
    [⟨1, 1, 9223372036854775807, none, some "Inbox", none, none⟩,
     ⟨2, 1, 9223372036854775808, none, some "Sent", none, none⟩]
    [⟨1, 1, 9223372036854775808, none, some "Archive", none, none⟩,
     ⟨2, 1, 9223372036854775808, none, some "Sent", none, none⟩]
    ⟨1, 1, 9223372036854775807, none, some "Inbox", none, none⟩ (some "Archive")
    (List.Mem.head _) rfl
    ⟨1, 1, 9223372036854775808, none, some "Archive", none, none⟩ (List.Mem.head _) rfl
  have h2 := h.2.2 ⟨2, 1, 9223372036854775808, none, some "Sent", none, none⟩
    (List.Mem.tail _ (List.Mem.head _)) (by decide)
  exact absurd h2 (by decide)

/-- C10: a rename changes nothing but `Name` and `UIDValidity` of the renamed row.
The table after the statement is the table before it with, in every row whose
`MailboxID` is the renamed one, `Name` set to the new name and `UIDValidity` set
to one value `v`; all other columns of that row and all other rows are what
they were.  The trigger body on its own always succeeds and rewrites only
`UIDValidity` of the rows carrying `new.MailboxID`. -/
theorem rename_changes_only_name_and_UIDValidity
    (t t' : List Mailbox) (id : Int) (newName : Option String)
    (h : Mailboxes.rename t id newName = Except.ok t') :
    (∃ v, t' = t.map (fun r =>
        if r.MailboxID = id then
          ⟨r.MailboxID, r.NextUID, v, r.Attrs, newName, r.DeletedName, r.Subscribed⟩
        else r)) ∧
    (∀ (new : Mailbox) (mid : List Mailbox), ∃ v,
      MailboxRenameUIDValidity new mid = Except.ok (mid.map (fun r =>
        if r.MailboxID = new.MailboxID then
          ⟨r.MailboxID, r.NextUID, v, r.Attrs, r.Name, r.DeletedName, r.Subscribed⟩
        else r))) :=
  ⟨⟨_, rename_ok_inv h⟩, fun new mid => ⟨_, trigger_eq new mid⟩⟩

/-- C3: names are unique among live mailboxes.  In every table, (1) an insert
under a non-NULL name that a row already holds is rejected and leaves the table
as it was (with `OR IGNORE` it is skipped), and the failure is the `UNIQUE` one
when nothing else is wrong with the row; (2) a rename of `m` onto a non-NULL name
held by another row fails on `UNIQUE(Name)` and leaves the table as it was;
(3) a deleted mailbox (`Name` NULL, any `DeletedName`) is always accepted next to
the rows already there; (4) a live mailbox is accepted as soon as no row has its
`Name`, whatever the `DeletedName` columns hold.  (5) Over every sequence of
statements run from the empty schema no two rows share a non-NULL `Name`. -/
theorem mailbox_names_unique_among_live (t : List Mailbox) :
    (∀ (v : MailboxValues) (n : String), (∃ q ∈ t, q.Name = some n) → v.Name = some n →
      (∃ e, Mailboxes.insert OnConflict.abort t v = Except.error e) ∧
      commit t (Mailboxes.insert OnConflict.abort t v) = t ∧
      Mailboxes.insert OnConflict.ignore t v = Except.ok t ∧
      (∀ nu uv, v.MailboxID = none → v.NextUID = some nu → v.UIDValidity = some uv →
        Mailboxes.insert OnConflict.abort t v = Except.error SqlError.unique)) ∧
    (∀ (m q : Mailbox) (n : String), m ∈ t → q ∈ t → q.MailboxID ≠ m.MailboxID →
      q.Name = some n →
      Mailboxes.rename t m.MailboxID (some n) = Except.error SqlError.unique ∧
      commit t (Mailboxes.rename t m.MailboxID (some n)) = t) ∧
    (∀ (nu uv : Int) (attrs : Option Int) (deleted : Option String) (sub : Option Bool),
      Mailboxes.insert OnConflict.abort t ⟨none, some nu, some uv, attrs, none, deleted, sub⟩
        = Except.ok (t ++ [⟨nextRowid (t.map Mailbox.MailboxID), nu, uv, attrs, none,
            deleted, sub⟩])) ∧
    (∀ (nu uv : Int) (attrs : Option Int) (n : String) (deleted : Option String)
      (sub : Option Bool), (∀ q ∈ t, q.Name ≠ some n) →
      Mailboxes.insert OnConflict.abort t ⟨none, some nu, some uv, attrs, some n, deleted, sub⟩
        = Except.ok (t ++ [⟨nextRowid (t.map Mailbox.MailboxID), nu, uv, attrs, some n,
            deleted, sub⟩])) ∧
    (∀ (sts : List MailboxStmt),
      (Store.empty.execMailboxes sts).Mailboxes.Pairwise
        (fun a b => ∀ n, a.Name = some n → b.Name ≠ some n)) := by
  refine ⟨?_, ?_, ?_, ?_, ?_⟩
  · rintro v n ⟨q, hq, hqn⟩ hvn
    have hc : sqlEq q.Name v.Name = true := by simp [hqn, hvn, sqlEq]
    obtain ⟨⟨e, he⟩, hign⟩ := mailboxes_insert_taken v hq hc
    refine ⟨⟨e, he⟩, by rw [he]; rfl, hign, ?_⟩
    intro nu uv hid hnu huv
    unfold Mailboxes.insert
    rw [hnu, huv, hid]
    simp only [Option.getD_none]
    refine sqlInsert_unique ?_ hq (by simpa [Mailboxes.uq] using hc)
    intro x hx
    have := nextRowid_gt x.MailboxID (List.mem_map_of_mem Mailbox.MailboxID hx)
    simp only [Mailboxes.pk, decide_eq_false_iff_not]
    omega
  · intro m q n hm hq hqm hqn
    have hc : sqlEq q.Name (some n) = true := by simp [hqn, sqlEq]
    have := rename_clash hm rfl hq hqm hc
    exact ⟨this, by rw [this]; rfl⟩
  · intro nu uv attrs deleted sub
    exact mailboxes_insert_fresh _ t nu uv attrs none deleted sub
      (fun q _ => sqlEq_none_right q.Name)
  · intro nu uv attrs n deleted sub hfree
    apply mailboxes_insert_fresh
    intro q hq
    cases hc : sqlEq q.Name (some n) with
    | false => rfl
    | true =>
      obtain ⟨x, hx1, hx2⟩ := sqlEq_eq_true.mp hc
      injection hx2 with hx2
      subst hx2
      exact absurd hx1 (hfree q hq)
  · intro sts
    have := execMailboxes_pairwise sts Store.empty List.Pairwise.nil
    refine List.Pairwise.imp ?_ this
    intro a b hab n ha hb
    have := hab.2
    simp [ha, hb, sqlEq] at this

/-- C4: statements on `Mailboxes` (inserts, updates with the trigger, deletes)
leave the `MailboxSequencing` table as it was, so the `NextModSequence` found for
any name is the old one; and once a name has a row, no insert into
`MailboxSequencing` for that name (plain or `OR IGNORE`, whatever start value it
carries) replaces the value found. -/
theorem mailbox_statements_keep_MailboxSequencing (s : Store) (sts : List MailboxStmt) :
    (s.execMailboxes sts).MailboxSequencing = s.MailboxSequencing ∧
    (∀ name, nextModSequenceOf (s.execMailboxes sts).MailboxSequencing name
      = nextModSequenceOf s.MailboxSequencing name) ∧
    (∀ (name : String) (k : Int) (oc : OnConflict) (start : Option Int),
      nextModSequenceOf s.MailboxSequencing name = some k →
      nextModSequenceOf
        (commit (s.execMailboxes sts).MailboxSequencing
          (MailboxSequencing.insert oc (s.execMailboxes sts).MailboxSequencing
            (some name) start)) name = some k) := by
  have hframe := execMailboxes_frame sts s
  refine ⟨hframe, fun name => by rw [hframe], ?_⟩
  intro name k oc start hk
  rw [hframe]
  cases start with
  | none =>
    simp only [MailboxSequencing.insert, resolve_commit]
    exact hk
  | some v =>
    simp only [MailboxSequencing.insert]
    cases hres : sqlInsert MailboxSequencing.pk (fun _ _ => false) oc s.MailboxSequencing
        ⟨some name, v⟩ with
    | error e => exact hk
    | ok t' =>
      simp only [commit]
      rcases sqlInsert_ok_cases hres with rfl | ⟨_, hfree⟩
      · exact hk
      · exfalso
        unfold nextModSequenceOf at hk
        cases hf : List.find? (fun r => sqlEq r.Name (some name)) s.MailboxSequencing with
        | none => rw [hf] at hk; cases hk
        | some r =>
          have h1 := List.find?_some hf
          have h2 := (hfree r (List.mem_of_find?_eq_some hf)).1
          simp only [MailboxSequencing.pk] at h2
          rw [h2] at h1
          cases h1

/-! ## `UIDValidity` on creation -/

/-- C2 at the failing input.  From the freshly created schema, "Inbox" is inserted
with `UIDValidity` 2 and soft-deleted, which the trigger answers with
`UIDValidity` 3; a new "Inbox" inserted with `UIDValidity` 3 is then accepted as
given: no trigger runs on `INSERT`, so the table holds two rows with
`UIDValidity` 3, and the new mailbox is not above the values that were
there. -/
theorem insert_keeps_given_UIDValidity :
    ((createSQL Store.empty).execMailboxes
      [MailboxStmt.insert OnConflict.abort
        ⟨none, some 1, some 2, none, some "Inbox", none, none⟩,
       MailboxStmt.update 1
        ⟨none, none, none, some (fun _ => none), some (fun r => r.Name), none⟩]).Mailboxes
      = [⟨1, 1, 3, none, none, some "Inbox", none⟩] ∧
    Mailboxes.insert OnConflict.abort [⟨1, 1, 3, none, none, some "Inbox", none⟩]
        ⟨none, some 1, some 3, none, some "Inbox", none, none⟩
      = Except.ok [⟨1, 1, 3, none, none, some "Inbox", none⟩,
          ⟨2, 1, 3, none, some "Inbox", none, none⟩] ∧
    ¬ ([(⟨1, 1, 3, none, none, some "Inbox", none⟩ : Mailbox),
        ⟨2, 1, 3, none, some "Inbox", none, none⟩].Pairwise
        (fun a b => a.UIDValidity ≠ b.UIDValidity)) := by
  refine ⟨rfl, rfl, ?_⟩
  simp

/-! ## `blobs.Blobs` -/

theorem blobs_exec_pairwise {t : List Blob} (st : BlobStmt)
    (hR : t.Pairwise (fun a b => a.BlobID ≠ b.BlobID)) :
    (commit t (Blobs.exec t st)).Pairwise (fun a b => a.BlobID ≠ b.BlobID) := by
  cases hres : Blobs.exec t st with
  | error e => exact hR
  | ok t' =>
    simp only [commit]
    cases st with
    | insert oc id sha deleted content =>
      simp only [Blobs.exec, Blobs.insert] at hres
      refine sqlInsert_pairwise hR ?_ hres
      intro q _ hpk _
      simpa [Blobs.pk] using hpk
    | update id sha deleted content =>
      simp only [Blobs.exec, Blobs.update] at hres
      refine sqlUpdate_pairwise (fun a b hab => fun e => hab e.symm) hR ?_ ?_ hres
      · intro x y hx hy hxy
        have h1 : x.BlobID = id := by simpa using hx
        have h2 : y.BlobID = id := by simpa using hy
        exact hxy (h1.trans h2.symm)
      · intro r r' q hf _ _ hqr _
        injection hf with hf
        rw [← hf]
        exact hqr
    | delete id =>
      simp only [Blobs.exec] at hres
      injection hres with hres
      rw [← hres]
      exact sqlDelete_pairwise hR

theorem blobs_run_pairwise (sts : List BlobStmt) (t : List Blob)
    (hR : t.Pairwise (fun a b => a.BlobID ≠ b.BlobID)) :
    (Blobs.run t sts).Pairwise (fun a b => a.BlobID ≠ b.BlobID) := by
  induction sts generalizing t with
  | nil => exact hR
  | cons st sts ih =>
    simp only [Blobs.run, List.foldl_cons]
    exact ih _ (blobs_exec_pairwise st hR)

/-- C5, as the code has it: `BlobID` is the only key of `blobs.Blobs`.  Over every
sequence of statements run from the empty table no two rows share a `BlobID`;
an insert that leaves `BlobID` to the engine (`NULL`) is accepted in every table,
whatever its `SHA256`, and adds a row; so is an insert under a `BlobID` that no
row has; and an insert under a `BlobID` that a row has is rejected and leaves the
table as it was, also when the `SHA256` differs. -/
theorem blobs_keyed_by_BlobID_only (sts : List BlobStmt) :
    (Blobs.run [] sts).Pairwise (fun a b => a.BlobID ≠ b.BlobID) ∧
    (∀ (t : List Blob) (sha : Option String) (deleted : Option Int)
      (content : Option (List Nat)),
      Blobs.insert OnConflict.abort t none sha deleted content
        = Except.ok (t ++ [⟨nextRowid (t.map Blob.BlobID), sha, deleted, content⟩])) ∧
    (∀ (t : List Blob) (id : Int) (sha : Option String) (deleted : Option Int)
      (content : Option (List Nat)), (∀ q ∈ t, q.BlobID ≠ id) →
      Blobs.insert OnConflict.abort t (some id) sha deleted content
        = Except.ok (t ++ [⟨id, sha, deleted, content⟩])) ∧
    (∀ (t : List Blob) (id : Int) (sha : Option String) (deleted : Option Int)
      (content : Option (List Nat)), (∃ q ∈ t, q.BlobID = id) →
      Blobs.insert OnConflict.abort t (some id) sha deleted content
        = Except.error SqlError.primaryKey ∧
      Blobs.insert OnConflict.ignore t (some id) sha deleted content = Except.ok t) := by
  refine ⟨blobs_run_pairwise sts [] List.Pairwise.nil, ?_, ?_, ?_⟩
  · intro t sha deleted content
    simp only [Blobs.insert, Option.getD_none]
    apply sqlInsert_free
    intro q hq
    have := nextRowid_gt q.BlobID (List.mem_map_of_mem Blob.BlobID hq)
    refine ⟨?_, rfl⟩
    simp only [Blobs.pk, decide_eq_false_iff_not]
    omega
  · intro t id sha deleted content hfresh
    simp only [Blobs.insert, Option.getD_some]
    apply sqlInsert_free
    intro q hq
    exact ⟨by simpa [Blobs.pk] using hfresh q hq, rfl⟩
  · rintro t id sha deleted content ⟨q, hq, hqid⟩
    have hany : t.any (fun x => Blobs.pk x ⟨id, sha, deleted, content⟩) = true :=
      List.any_eq_true.mpr ⟨q, hq, by simp [Blobs.pk, hqid]⟩
    constructor <;> simp [Blobs.insert, sqlInsert, hany, resolve]

/-- C5 as stated fails: two inserts of the same hash into the empty table are both
accepted and leave two rows with one `SHA256` and two `BlobID`s. -/
theorem blobs_same_hash_twice :
    Blobs.run [] [BlobStmt.insert OnConflict.abort none (some "cafe") none (some [1, 2]),
        BlobStmt.insert OnConflict.abort none (some "cafe") none (some [1, 2])]
      = [⟨1, some "cafe", none, some [1, 2]⟩, ⟨2, some "cafe", none, some [1, 2]⟩] ∧
    ¬ (∀ (sts : List BlobStmt), ∀ a ∈ Blobs.run [] sts, ∀ b ∈ Blobs.run [] sts,
        a.SHA256 = b.SHA256 → a.BlobID = b.BlobID) := by
  have hrun : Blobs.run [] [BlobStmt.insert OnConflict.abort none (some "cafe") none (some [1, 2]),
        BlobStmt.insert OnConflict.abort none (some "cafe") none (some [1, 2])]
      = [⟨1, some "cafe", none, some [1, 2]⟩, ⟨2, some "cafe", none, some [1, 2]⟩] := by rfl
  refine ⟨hrun, fun h => ?_⟩
  have := h _ ⟨1, some "cafe", none, some [1, 2]⟩ (by rw [hrun]; simp)
    ⟨2, some "cafe", none, some [1, 2]⟩ (by rw [hrun]; simp) rfl
  simp at this

/-! ## `ConvoContacts` -/

theorem convoContacts_run_pairwise (sts : List ConvoContactStmt) (t : List ConvoContact)
    (hR : t.Pairwise ConvoContacts.Compatible) :
    (ConvoContacts.run t sts).Pairwise ConvoContacts.Compatible := by
  induction sts generalizing t with
  | nil => exact hR
  | cons st sts ih =>
    simp only [ConvoContacts.run, List.foldl_cons]
    apply ih
    cases hres : ConvoContacts.exec t st with
    | error e => exact hR
    | ok t' =>
      simp only [commit]
      cases st with
      | insert oc convo contact =>
        simp only [ConvoContacts.exec, ConvoContacts.insert] at hres
        exact sqlInsert_pairwise hR (fun q _ hpk _ => hpk) hres
      | delete convo contact =>
        simp only [ConvoContacts.exec] at hres
        injection hres with hres
        rw [← hres]
        exact sqlDelete_pairwise hR

theorem count_le_one_of_pairwise {α : Type} [DecidableEq α] {x : α} {l : List α}
    (h : l.Pairwise (fun a b => ¬ (a = x ∧ b = x))) : l.count x ≤ 1 := by
  induction l with
  | nil => simp
  | cons a l ih =>
    rw [List.pairwise_cons] at h
    by_cases hax : a = x
    · have : l.count x = 0 := by
        rw [List.count_eq_zero]
        intro hx
        exact h.1 x hx ⟨hax, rfl⟩
      rw [List.count_cons, this]
      simp [hax]
    · rw [List.count_cons]
      have := ih h.2
      simp only [beq_iff_eq, hax, if_false]
      omega

/-- C9, as the code has it: linking is idempotent for a pair of two non-NULL
identifiers.  When the row `(convo, contact)` is present, a plain insert of the
same pair fails on the primary key, an `INSERT OR IGNORE` of it succeeds without
writing, and either way the table is what it was; and over every sequence of
inserts and deletes run from the empty table such a pair is held at most
once. -/
theorem convoContacts_link_idempotent (convo contact : Int) :
    (∀ (t : List ConvoContact), (⟨some convo, some contact⟩ : ConvoContact) ∈ t →
      ConvoContacts.insert OnConflict.abort t (some convo) (some contact)
        = Except.error SqlError.primaryKey ∧
      ConvoContacts.insert OnConflict.ignore t (some convo) (some contact) = Except.ok t ∧
      ∀ oc, commit t (ConvoContacts.insert oc t (some convo) (some contact)) = t) ∧
    (∀ (sts : List ConvoContactStmt),
      (ConvoContacts.run [] sts).count ⟨some convo, some contact⟩ ≤ 1) := by
  refine ⟨?_, ?_⟩
  · intro t hmem
    have hany : t.any (fun q => ConvoContacts.pk q ⟨some convo, some contact⟩) = true :=
      List.any_eq_true.mpr ⟨_, hmem, by simp [ConvoContacts.pk, sqlEq]⟩
    have h1 : ConvoContacts.insert OnConflict.abort t (some convo) (some contact)
        = Except.error SqlError.primaryKey := by
      simp [ConvoContacts.insert, sqlInsert, hany, resolve]
    have h2 : ConvoContacts.insert OnConflict.ignore t (some convo) (some contact)
        = Except.ok t := by
      simp [ConvoContacts.insert, sqlInsert, hany, resolve]
    refine ⟨h1, h2, fun oc => ?_⟩
    cases oc
    · rw [h1]; rfl
    · rw [h2]; rfl
  · intro sts
    apply count_le_one_of_pairwise
    refine List.Pairwise.imp ?_ (convoContacts_run_pairwise sts [] List.Pairwise.nil)
    rintro a b hab ⟨rfl, rfl⟩
    simp [ConvoContacts.Compatible, ConvoContacts.pk, sqlEq] at hab

/-- C9 as stated fails for a pair with a NULL component: the row `(NULL, 5)` is
present, and inserting `(NULL, 5)` again, with or without `OR IGNORE`, is accepted
and leaves the pair twice in the table. -/
theorem convoContacts_null_pair_twice :
    ConvoContacts.insert OnConflict.abort [⟨none, some 5⟩] none (some 5)
      = Except.ok [⟨none, some 5⟩, ⟨none, some 5⟩] ∧
    ConvoContacts.insert OnConflict.ignore [⟨none, some 5⟩] none (some 5)
      = Except.ok [⟨none, some 5⟩, ⟨none, some 5⟩] ∧
    ¬ (∀ (t : List ConvoContact) (r : ConvoContact) (oc : OnConflict), r ∈ t →
        commit t (ConvoContacts.insert oc t r.ConvoID r.ContactID) = t) := by
  refine ⟨rfl, rfl, fun h => ?_⟩
  have := h [⟨none, some 5⟩] ⟨none, some 5⟩ OnConflict.ignore (by simp)
  have hrun : commit [(⟨none, some 5⟩ : ConvoContact)]
      (ConvoContacts.insert OnConflict.ignore [⟨none, some 5⟩] none (some 5))
      = [⟨none, some 5⟩, ⟨none, some 5⟩] := rfl
  rw [hrun] at this
  simp at this

/-! ## `Msgs` -/

theorem msgSet_apply_some {a : MsgSet} {r r' : Msg} (h : a.apply r = some r') :
    r'.MsgID = r.MsgID ∧ r'.StagingID = setCol a.StagingID r.StagingID r := by
  unfold MsgSet.apply at h
  split at h
  · injection h with h
    subst h
    exact ⟨rfl, rfl⟩
  · cases h

theorem msgs_exec_pairwise {t : List Msg} (st : MsgStmt)
    (hR : t.Pairwise Msgs.Compatible) :
    (commit t (Msgs.exec t st)).Pairwise Msgs.Compatible := by
  cases hres : Msgs.exec t st with
  | error e => exact hR
  | ok t' =>
    simp only [commit]
    cases st with
    | insert oc v =>
      simp only [Msgs.exec, Msgs.insert] at hres
      split at hres
      · refine sqlInsert_pairwise hR ?_ hres
        intro q _ hpk huq
        exact ⟨by simpa [Msgs.pk] using hpk, by simpa [Msgs.uq] using huq⟩
      · cases oc
        · cases hres
        · injection hres with hres
          rw [← hres]
          exact hR
    | update id a =>
      simp only [Msgs.exec, Msgs.update] at hres
      refine sqlUpdate_pairwise ?_ hR ?_ ?_ hres
      · intro x y hxy
        exact ⟨fun e => hxy.1 e.symm, by rw [sqlEq_comm]; exact hxy.2⟩
      · intro x y hx hy hxy
        have h1 : x.MsgID = id := by simpa using hx
        have h2 : y.MsgID = id := by simpa using hy
        exact hxy.1 (h1.trans h2.symm)
      · intro r r' q hf _ _ hqr huq
        obtain ⟨hid, hst⟩ := msgSet_apply_some hf
        refine ⟨by rw [hid]; exact hqr.1, ?_⟩
        cases ha : a.StagingID with
        | none =>
          rw [hst, ha]
          exact hqr.2
        | some g =>
          simpa [ha, Msgs.uq] using huq
    | delete id =>
      simp only [Msgs.exec] at hres
      injection hres with hres
      rw [← hres]
      exact sqlDelete_pairwise hR

theorem msgs_run_pairwise (sts : List MsgStmt) (t : List Msg)
    (hR : t.Pairwise Msgs.Compatible) :
    (Msgs.run t sts).Pairwise Msgs.Compatible := by
  induction sts generalizing t with
  | nil => exact hR
  | cons st sts ih =>
    simp only [Msgs.run, List.foldl_cons]
    exact ih _ (msgs_exec_pairwise st hR)

/-- C6: `StagingID` identifies a server-ingested message.  (1) Over every sequence
of inserts, updates and deletes run from the empty table, no two `Msgs` rows
share a non-NULL `StagingID`.  (2) In every table, an insert carrying the non-NULL
`StagingID` of a stored row is rejected and leaves the table as it was (skipped
under `OR IGNORE`), whatever the `Expunged` column of the stored row holds.
(3) A draft (`StagingID` NULL, rowid left to the engine, `Date` given) is always
accepted, next to any number of other drafts. -/
theorem stagingID_unique (t : List Msg) :
    (∀ (sts : List MsgStmt),
      (Msgs.run [] sts).Pairwise (fun a b => ∀ k, a.StagingID = some k → b.StagingID ≠ some k)) ∧
    (∀ (v : MsgValues) (k : Int) (q : Msg), q ∈ t → q.StagingID = some k →
      v.StagingID = some k →
      (∃ e, Msgs.insert OnConflict.abort t v = Except.error e) ∧
      commit t (Msgs.insert OnConflict.abort t v) = t ∧
      Msgs.insert OnConflict.ignore t v = Except.ok t) ∧
    (∀ (v : MsgValues) (d : Int), v.MsgID = none → v.StagingID = none → v.Date = some d →
      Msgs.insert OnConflict.abort t v = Except.ok (t ++ [v.row t d])) := by
  refine ⟨?_, ?_, ?_⟩
  · intro sts
    refine List.Pairwise.imp ?_ (msgs_run_pairwise sts [] List.Pairwise.nil)
    intro a b hab k ha hb
    have := hab.2
    simp [ha, hb, sqlEq] at this
  · intro v k q hq hqk hvk
    have hc : Msgs.uq q
        ⟨v.MsgID.getD (nextRowid (t.map Msg.MsgID)), v.StagingID, v.ModSequence, v.Seed,
          v.RawHash, v.ConvoID, v.State, v.ParseError, v.MailboxID, v.UID, v.Flags,
          v.EncodedSize, 0, v.Expunged, v.HdrsBlobID, v.HasUnsubscribe⟩ = true := by
      simp [Msgs.uq, hqk, hvk, sqlEq]
    have key : (∃ e, Msgs.insert OnConflict.abort t v = Except.error e) ∧
        Msgs.insert OnConflict.ignore t v = Except.ok t := by
      unfold Msgs.insert
      split
      · exact sqlInsert_clash hq (Or.inr (by simpa [Msgs.uq] using hc))
      · exact ⟨⟨_, rfl⟩, rfl⟩
    obtain ⟨⟨e, he⟩, hign⟩ := key
    exact ⟨⟨e, he⟩, by rw [he]; rfl, hign⟩
  · intro v d hid hst hd
    unfold Msgs.insert
    rw [hd, hid]
    simp only [Option.getD_none]
    apply sqlInsert_free
    intro q hq
    have := nextRowid_gt q.MsgID (List.mem_map_of_mem Msg.MsgID hq)
    refine ⟨?_, ?_⟩
    · simp only [Msgs.pk, decide_eq_false_iff_not]
      omega
    · simp only [Msgs.uq, hst]
      exact sqlEq_none_right _

/-! ## `Labels` and `ConvoLabels` -/

theorem labels_exec_pairwise {t : List Label} (st : LabelStmt)
    (hR : t.Pairwise Labels.Compatible) :
    (commit t (Labels.exec t st)).Pairwise Labels.Compatible := by
  cases hres : Labels.exec t st with
  | error e => exact hR
  | ok t' =>
    simp only [commit]
    cases st with
    | insert oc id label =>
      simp only [Labels.exec, Labels.insert] at hres
      refine sqlInsert_pairwise hR ?_ hres
      intro q _ hpk huq
      exact ⟨by simpa [Labels.pk] using hpk, by simpa [Labels.uq] using huq⟩
    | setLabel id label =>
      simp only [Labels.exec, Labels.setLabel] at hres
      refine sqlUpdate_pairwise ?_ hR ?_ ?_ hres
      · intro x y hxy
        exact ⟨fun e => hxy.1 e.symm, by rw [sqlEq_comm]; exact hxy.2⟩
      · intro x y hx hy hxy
        have h1 : x.LabelID = id := by simpa using hx
        have h2 : y.LabelID = id := by simpa using hy
        exact hxy.1 (h1.trans h2.symm)
      · intro r r' q hf _ _ hqr huq
        injection hf with hf
        subst hf
        exact ⟨hqr.1, by simpa [Labels.uq] using huq⟩
    | delete id =>
      simp only [Labels.exec] at hres
      injection hres with hres
      rw [← hres]
      exact sqlDelete_pairwise hR

theorem execLabels_pairwise (sts : List LabelStmt) (s : Store)
    (hR : s.Labels.Pairwise Labels.Compatible) :
    (s.execLabels sts).Labels.Pairwise Labels.Compatible := by
  induction sts generalizing s with
  | nil => exact hR
  | cons st sts ih =>
    simp only [Store.execLabels, List.foldl_cons]
    exact ih (s.execLabel st) (labels_exec_pairwise st hR)

theorem execLabels_frame (sts : List LabelStmt) (s : Store) :
    (s.execLabels sts).ConvoLabels = s.ConvoLabels := by
  induction sts generalizing s with
  | nil => rfl
  | cons st sts ih =>
    simp only [Store.execLabels, List.foldl_cons]
    exact ih (s.execLabel st)

theorem labels_softDelete_eq (t : List Label) (id : Int) :
    Labels.setLabel t id none
      = Except.ok (t.map (fun r => if r.LabelID = id then ⟨r.LabelID, none⟩ else r)) := by
  unfold Labels.setLabel
  rw [sqlUpdate_eq_ok (fun r => (⟨r.LabelID, none⟩ : Label))]
  · congr 1
    apply List.map_congr_left
    intro r _
    by_cases hr : r.LabelID = id <;> simp [hr]
  · intro r _ _
    rfl
  · intro r _ _ q _ _
    simp [Labels.uq, sqlEq_none_right]

theorem seed_labels :
    (createSQL Store.empty).Labels
      = [⟨1, some "Personal Mail"⟩, ⟨2, some "Subscriptions"⟩, ⟨3, some "Spam and Trash"⟩] := by
  rfl

/-- C7: label text is unique among live labels and a soft delete keeps the
identifier.  (1) Over every sequence of inserts, label updates and deletes run
from the freshly created schema (which holds the three seed labels), no two
`Labels` rows share a non-NULL `Label`.  (2) In every store, setting `Label` to NULL
for the row `id` always succeeds, rewrites only the `Label` column of that row, so
every `LabelID` stays where it was, and leaves `ConvoLabels` untouched; no
sequence of statements on `Labels` writes `ConvoLabels`.  (3) A row with a NULL
`Label` is always accepted by an insert, next to any number of others. -/
theorem label_unique_soft_delete_keeps_id (s : Store) :
    (∀ (sts : List LabelStmt),
      ((createSQL Store.empty).execLabels sts).Labels.Pairwise
        (fun a b => ∀ n, a.Label = some n → b.Label ≠ some n)) ∧
    (∀ (id : Int),
      Labels.setLabel s.Labels id none
        = Except.ok (s.Labels.map (fun r => if r.LabelID = id then ⟨r.LabelID, none⟩ else r)) ∧
      (s.execLabel (LabelStmt.setLabel id none)).Labels.map Label.LabelID
        = s.Labels.map Label.LabelID ∧
      (s.execLabel (LabelStmt.setLabel id none)).ConvoLabels = s.ConvoLabels) ∧
    (∀ (sts : List LabelStmt), (s.execLabels sts).ConvoLabels = s.ConvoLabels) ∧
    Labels.insert OnConflict.abort s.Labels none none
      = Except.ok (s.Labels ++ [⟨nextRowid (s.Labels.map Label.LabelID), none⟩]) := by
  refine ⟨?_, ?_, fun sts => execLabels_frame sts s, ?_⟩
  · intro sts
    have hseed : (createSQL Store.empty).Labels.Pairwise Labels.Compatible := by
      rw [seed_labels]
      simp [Labels.Compatible, sqlEq]
    refine List.Pairwise.imp ?_ (execLabels_pairwise sts _ hseed)
    intro a b hab n ha hb
    have := hab.2
    simp [ha, hb, sqlEq] at this
  · intro id
    refine ⟨labels_softDelete_eq s.Labels id, ?_, rfl⟩
    simp only [Store.execLabel, Labels.exec, labels_softDelete_eq, commit, List.map_map]
    apply List.map_congr_left
    intro r _
    by_cases hr : r.LabelID = id <;> simp [hr]
  · simp only [Labels.insert, Option.getD_none]
    apply sqlInsert_free
    intro q hq
    have := nextRowid_gt q.LabelID (List.mem_map_of_mem Label.LabelID hq)
    refine ⟨?_, by simp [Labels.uq, sqlEq_none_right]⟩
    simp only [Labels.pk, decide_eq_false_iff_not]
    omega

/-! ## The owner contact -/

theorem createSQL_contacts (s : Store) :
    (createSQL s).Contacts = commit s.Contacts
      (Contacts.insert OnConflict.ignore s.Contacts (some 1) (some false) (some false)) := by
  rfl

/-- C8: after `createSQL` has run, `Contacts` holds a row with `ContactID` 1.  On a
store whose `Contacts` table is empty the table is then exactly the row
`(1, FALSE, FALSE)`; on a store without a `ContactID` 1 row that row is added behind
the others; on a store that has a `ContactID` 1 row the `Contacts` table is left as
it was. -/
theorem owner_contact_exists (s : Store) :
    (∃ c ∈ (createSQL s).Contacts, c.ContactID = 1) ∧
    (s.Contacts = [] → (createSQL s).Contacts = [⟨1, some false, some false⟩]) ∧
    ((∀ c ∈ s.Contacts, c.ContactID ≠ 1) →
      (createSQL s).Contacts = s.Contacts ++ [⟨1, some false, some false⟩]) ∧
    ((∃ c ∈ s.Contacts, c.ContactID = 1) → (createSQL s).Contacts = s.Contacts) := by
  have hfresh : (∀ c ∈ s.Contacts, c.ContactID ≠ 1) →
      (createSQL s).Contacts = s.Contacts ++ [⟨1, some false, some false⟩] := by
    intro h
    rw [createSQL_contacts]
    simp only [Contacts.insert, Option.getD_some]
    rw [sqlInsert_free]
    · rfl
    · intro q hq
      exact ⟨by simpa [Contacts.pk] using h q hq, rfl⟩
  have hheld : (∃ c ∈ s.Contacts, c.ContactID = 1) → (createSQL s).Contacts = s.Contacts := by
    rintro ⟨c, hc, hc1⟩
    rw [createSQL_contacts]
    simp only [Contacts.insert, Option.getD_some]
    have := (@sqlInsert_clash Contact Contacts.pk (fun _ _ => false) s.Contacts c
      ⟨1, some false, some false⟩ hc (Or.inl (by simp [Contacts.pk, hc1]))).2
    rw [this]
    rfl
  refine ⟨?_, ?_, hfresh, hheld⟩
  · by_cases h : ∃ c ∈ s.Contacts, c.ContactID = 1
    · obtain ⟨c, hc, hc1⟩ := h
      exact ⟨c, by rw [hheld ⟨c, hc, hc1⟩]; exact hc, hc1⟩
    · push_neg at h
      exact ⟨⟨1, some false, some false⟩, by rw [hfresh h]; simp, rfl⟩
  · intro hempty
    rw [hfresh (by rw [hempty]; simp), hempty]
    rfl

/-! ## The theorems at concrete tables -/

/-- C1 at `exampleMailboxes`: renaming mailbox 1 to "Archive" succeeds and leaves it
with `UIDValidity` 3, one more than the maximum 2. -/
theorem rename_UIDValidity_is_max_plus_one_witness :
    (⟨1, 1, 1, none, some "Inbox", none, none⟩ : Mailbox) ∈ exampleMailboxes ∧
    Mailboxes.rename exampleMailboxes 1 (some "Archive") = Except.ok exampleRenamed ∧
    ∃ mid v,
      Mailboxes.updateRows exampleMailboxes 1 (setName (some "Archive")) = Except.ok mid ∧
      maxUIDValidity mid = some v ∧
      maxUIDValidity exampleMailboxes = some v ∧
      (⟨1, 1, 1, none, some "Inbox", none, none⟩ : Mailbox).renamed (some "Archive") (v + 1)
        ∈ exampleRenamed ∧
      ∀ m' ∈ exampleRenamed, m'.MailboxID = 1 →
        m'.UIDValidity = v + 1 ∧
        (1 : Int) < m'.UIDValidity ∧
        (∀ q ∈ exampleMailboxes, q.UIDValidity < m'.UIDValidity) ∧
        (∀ q ∈ exampleRenamed, q.MailboxID ≠ 1 → q.UIDValidity < m'.UIDValidity) :=
  ⟨List.Mem.head _, rfl,
    rename_UIDValidity_is_max_plus_one exampleMailboxes exampleRenamed
      ⟨1, 1, 1, none, some "Inbox", none, none⟩ (some "Archive") (List.Mem.head _)
      (fun v hv => by
        have h2 : maxUIDValidity exampleMailboxes = some 2 := rfl
        rw [h2] at hv
        injection hv with hv
        subst hv
        decide) rfl⟩

/-- C10 at `exampleMailboxes`: renaming mailbox 1 to "Archive" rewrites `Name` and
`UIDValidity` of that row and nothing else. -/
theorem rename_changes_only_name_and_UIDValidity_witness :
    Mailboxes.rename exampleMailboxes 1 (some "Archive") = Except.ok exampleRenamed ∧
    (∃ v, exampleRenamed = exampleMailboxes.map (fun r =>
        if r.MailboxID = 1 then
          ⟨r.MailboxID, r.NextUID, v, r.Attrs, some "Archive", r.DeletedName, r.Subscribed⟩
        else r)) :=
  ⟨rfl, (rename_changes_only_name_and_UIDValidity exampleMailboxes exampleRenamed 1
    (some "Archive") rfl).1⟩

/-- C3 at `exampleMailboxes`: a second "Inbox" is rejected, "Sent" cannot be renamed to
"Inbox", and "Archive" is accepted. -/
theorem mailbox_names_unique_among_live_witness :
    (∃ e, Mailboxes.insert OnConflict.abort exampleMailboxes
      ⟨none, some 1, some 3, none, some "Inbox", none, none⟩ = Except.error e) ∧
    Mailboxes.rename exampleMailboxes 2 (some "Inbox") = Except.error SqlError.unique ∧
    Mailboxes.insert OnConflict.abort exampleMailboxes
        ⟨none, some 1, some 3, none, some "Archive", none, none⟩
      = Except.ok (exampleMailboxes ++ [⟨nextRowid (exampleMailboxes.map Mailbox.MailboxID),
          1, 3, none, some "Archive", none, none⟩]) :=
  ⟨((mailbox_names_unique_among_live exampleMailboxes).1
      ⟨none, some 1, some 3, none, some "Inbox", none, none⟩ "Inbox"
      ⟨⟨1, 1, 1, none, some "Inbox", none, none⟩, List.Mem.head _, rfl⟩ rfl).1,
    ((mailbox_names_unique_among_live exampleMailboxes).2.1
      ⟨2, 1, 2, none, some "Sent", none, none⟩ ⟨1, 1, 1, none, some "Inbox", none, none⟩
      "Inbox" (List.Mem.tail _ (List.Mem.head _)) (List.Mem.head _) (by decide) rfl).1,
    (mailbox_names_unique_among_live exampleMailboxes).2.2.2.1 1 3 none "Archive" none none
      (fun q hq => by
        simp only [exampleMailboxes, List.mem_cons, List.mem_singleton, List.not_mem_nil,
          or_false] at hq
        rcases hq with rfl | rfl <;> simp)⟩

/-- C4 at `exampleStore`: after "Inbox" is deleted and a new "Inbox" is inserted, the
sequencing row of "Inbox" is still at 3, also after `INSERT OR IGNORE ... ('Inbox', 1)`. -/
theorem mailbox_statements_keep_MailboxSequencing_witness :
    nextModSequenceOf exampleStore.MailboxSequencing "Inbox" = some 3 ∧
    nextModSequenceOf
      (commit (exampleStore.execMailboxes [MailboxStmt.delete 1,
          MailboxStmt.insert OnConflict.abort
            ⟨none, some 1, some 9, none, some "Inbox", none, none⟩]).MailboxSequencing
        (MailboxSequencing.insert OnConflict.ignore
          (exampleStore.execMailboxes [MailboxStmt.delete 1,
            MailboxStmt.insert OnConflict.abort
              ⟨none, some 1, some 9, none, some "Inbox", none, none⟩]).MailboxSequencing
          (some "Inbox") (some 1))) "Inbox" = some 3 :=
  ⟨rfl, (mailbox_statements_keep_MailboxSequencing exampleStore [MailboxStmt.delete 1,
      MailboxStmt.insert OnConflict.abort
        ⟨none, some 1, some 9, none, some "Inbox", none, none⟩]).2.2
    "Inbox" 3 OnConflict.ignore (some 1) rfl⟩

/-- C6 on a table holding one expunged message with `StagingID` 42: a second insert of
`StagingID` 42 is rejected, a draft is accepted. -/
theorem stagingID_unique_witness :
    (∃ e, Msgs.insert OnConflict.abort
      [⟨1, some 42, none, none, none, none, none, none, none, none, none, none, 5, some 9,
        none, none⟩] exampleStaged = Except.error e) ∧
    Msgs.insert OnConflict.abort
        [⟨1, some 42, none, none, none, none, none, none, none, none, none, none, 5, some 9,
          none, none⟩] exampleDraft
      = Except.ok
        [⟨1, some 42, none, none, none, none, none, none, none, none, none, none, 5, some 9,
          none, none⟩,
         ⟨2, none, none, none, none, none, none, none, none, none, none, none, 1700000000,
          none, none, none⟩] :=
  ⟨((stagingID_unique
      [⟨1, some 42, none, none, none, none, none, none, none, none, none, none, 5, some 9,
        none, none⟩]).2.1 exampleStaged 42 _ (List.Mem.head _) rfl rfl).1,
    (stagingID_unique
      [⟨1, some 42, none, none, none, none, none, none, none, none, none, none, 5, some 9,
        none, none⟩]).2.2 exampleDraft 1700000000 rfl rfl rfl⟩

/-- C7 at `exampleStore`: the soft delete of label 1 keeps its row and the link from
conversation 7. -/
theorem label_unique_soft_delete_keeps_id_witness :
    Labels.setLabel exampleStore.Labels 1 none = Except.ok [⟨1, none⟩] ∧
    (exampleStore.execLabel (LabelStmt.setLabel 1 none)).ConvoLabels = [⟨some 1, some 7⟩] :=
  ⟨((label_unique_soft_delete_keeps_id exampleStore).2.1 1).1,
    ((label_unique_soft_delete_keeps_id exampleStore).2.1 1).2.2⟩

/-- C8 at the empty store and at `exampleStore`, whose owner row is hidden. -/
theorem owner_contact_exists_witness :
    (createSQL Store.empty).Contacts = [⟨1, some false, some false⟩] ∧
    (createSQL exampleStore).Contacts = [⟨1, some true, some false⟩] :=
  ⟨(owner_contact_exists Store.empty).2.1 rfl,
    (owner_contact_exists exampleStore).2.2.2 ⟨⟨1, some true, some false⟩, List.Mem.head _, rfl⟩⟩

/-- C9 at a table holding the pair `(1, 5)`. -/
theorem convoContacts_link_idempotent_witness :
    ConvoContacts.insert OnConflict.abort [⟨some 1, some 5⟩] (some 1) (some 5)
      = Except.error SqlError.primaryKey ∧
    ConvoContacts.insert OnConflict.ignore [⟨some 1, some 5⟩] (some 1) (some 5)
      = Except.ok [⟨some 1, some 5⟩] :=
  ⟨((convoContacts_link_idempotent 1 5).1 [⟨some 1, some 5⟩] (List.Mem.head _)).1,
    ((convoContacts_link_idempotent 1 5).1 [⟨some 1, some 5⟩] (List.Mem.head _)).2.1⟩

/-- C5 at a table holding blob 1 with hash "cafe": a second "cafe" under the unused
`BlobID` 7 is accepted, under the used `BlobID` 1 any hash is rejected. -/
theorem blobs_keyed_by_BlobID_only_witness :
    Blobs.insert OnConflict.abort [⟨1, some "cafe", none, some [1, 2]⟩] (some 7)
        (some "cafe") none (some [1, 2])
      = Except.ok [⟨1, some "cafe", none, some [1, 2]⟩, ⟨7, some "cafe", none, some [1, 2]⟩] ∧
    Blobs.insert OnConflict.abort [⟨1, some "cafe", none, some [1, 2]⟩] (some 1)
        (some "beef") none none
      = Except.error SqlError.primaryKey :=
  ⟨(blobs_keyed_by_BlobID_only []).2.2.1 [⟨1, some "cafe", none, some [1, 2]⟩] 7
      (some "cafe") none (some [1, 2]) (fun q hq => by
        rw [List.mem_singleton] at hq
        subst hq
        decide),
    ((blobs_keyed_by_BlobID_only []).2.2.2 [⟨1, some "cafe", none, some [1, 2]⟩] 1
      (some "beef") none none ⟨_, List.Mem.head _, rfl⟩).1⟩

end Spillbox
